import Mathlib

/-!
Verification development for the material3 color library.

The Rust sources are shallowly embedded in Lean:
 - machine integers (`u32`, `usize`) become `ℕ` (overflow is irrelevant at the
   value ranges the library works with: ARGB values are < 2^32 by construction);
 - `f64` arithmetic on rational constants is modeled exactly over `ℚ`;
 - genuinely transcendental `f64` kernels (`powf` with non-integral exponents,
   `ln`, `atan2`, `sin`/`cos`) are either modeled over `ℝ` or abstracted as
   explicit function parameters ("oracles"); every control-flow decision,
   constant and arithmetic combination around them is translated verbatim;
 - `IndexMap`s become association lists in insertion order, `Vec`s become
   `List`s.
-/

namespace Material3

/-! ## utils/math_utils.rs -/

/-- Rust `clamp_int(min, max, input)` from utils/math_utils.rs. -/
def clamp_int (mn mx input : ℕ) : ℕ :=
  if input < mn then mn else if input > mx then mx else input

/-- Rust `clamp_double(min, max, input)` from utils/math_utils.rs. -/
def clamp_double (mn mx input : ℚ) : ℚ :=
  if input < mn then mn else if input > mx then mx else input

/-- Truncation toward zero of a rational, modelling Rust `f64 as` integer
truncation and the truncating `%` remainder. -/
def qtrunc (q : ℚ) : ℤ :=
  if q < 0 then -(Int.floor (-q)) else Int.floor q

/-- Rust `f64::%` (remainder with the sign of the dividend, truncated
division). -/
def rust_fmod (x y : ℚ) : ℚ :=
  x - y * (qtrunc (x / y) : ℚ)

/-- Rust `sanitize_degrees_double` from utils/math_utils.rs: `degrees % 360.0`,
then add 360 if negative. -/
def sanitize_degrees_double (degrees : ℚ) : ℚ :=
  let d := rust_fmod degrees 360
  if d < 0 then d + 360 else d

/-- Rust `f64::round()` (round half away from zero) followed by `as u32`
(saturating at 0 for negative values). -/
def rust_round_u32 (q : ℚ) : ℕ :=
  if q < 0 then 0 else (Int.floor (q + 1/2)).toNat

/-- Rust `f64::round()` kept as an integer (round half away from zero),
modelling `lstar.round()` compared against 0 and 100. -/
def rust_round (q : ℚ) : ℤ :=
  if q < 0 then -(Int.floor (-q + 1/2)) else Int.floor (q + 1/2)

/-! ## utils/color_utils.rs

`delinearized` and `linearized` apply `powf` with exponents `1/2.4` and `2.4`
on one branch; that transcendental branch value is abstracted as the function
parameter `tf` (everything else — the branch condition, the affine scalings,
rounding and clamping — is translated exactly). -/

/-- Rust `alpha_from_argb`: `argb >> 24 & 255`. -/
def alpha_from_argb (argb : ℕ) : ℕ :=
  argb >>> 24 &&& 255

/-- Rust `red_from_argb`: `(argb >> 16) & 255`. -/
def red_from_argb (argb : ℕ) : ℕ :=
  (argb >>> 16) &&& 255

/-- Rust `green_from_argb`: `(argb >> 8) & 255`. -/
def green_from_argb (argb : ℕ) : ℕ :=
  (argb >>> 8) &&& 255

/-- Rust `blue_from_argb`: `argb & 255`. -/
def blue_from_argb (argb : ℕ) : ℕ :=
  argb &&& 255

/-- Rust `argb_from_rgb`: `255 << 24 | (red & 255) << 16 | (green & 255) << 8 | blue & 255`. -/
def argb_from_rgb (red green blue : ℕ) : ℕ :=
  255 <<< 24 ||| (red &&& 255) <<< 16 ||| (green &&& 255) <<< 8 ||| (blue &&& 255)

/-- Rust `delinearized(rgb_component)`: the `powf(1.0/2.4)` value on the
gamma branch is supplied by `tf`. -/
def delinearized (tf : ℚ → ℚ) (rgb_component : ℚ) : ℕ :=
  let normalized := rgb_component / 100
  let d : ℚ :=
    if normalized ≤ 0.0031308 then normalized * 12.92
    else 1.055 * tf normalized - 0.055
  clamp_int 0 255 (rust_round_u32 (d * 255))

/-- Entries of the Rust constant `XYZ_TO_SRGB` 3×3 matrix. -/
def xyz_to_srgb (i j : ℕ) : ℚ :=
  match i, j with
  | 0, 0 => 3.2413774792388685
  | 0, 1 => -1.5376652402851851
  | 0, 2 => -0.49885366846268053
  | 1, 0 => -0.9691452513005321
  | 1, 1 => 1.8758853451067872
  | 1, 2 => 0.04156585616912061
  | 2, 0 => 0.05562093689691305
  | 2, 1 => -0.20395524564742123
  | 2, 2 => 1.0571799111220335
  | _, _ => 0

/-- Entries of the Rust constant `SRGB_TO_XYZ` 3×3 matrix. -/
def srgb_to_xyz (i j : ℕ) : ℚ :=
  match i, j with
  | 0, 0 => 0.41233895
  | 0, 1 => 0.35762064
  | 0, 2 => 0.18051042
  | 1, 0 => 0.2126
  | 1, 1 => 0.7152
  | 1, 2 => 0.0722
  | 2, 0 => 0.01932141
  | 2, 1 => 0.11916382
  | 2, 2 => 0.95034478
  | _, _ => 0

/-- Components of the Rust constant `WHITE_POINT_D65`. -/
def white_point_d65 (i : ℕ) : ℚ :=
  match i with
  | 0 => 95.047
  | 1 => 100.0
  | _ => 108.883

/-- Rust `argb_from_xyz(x, y, z)` from utils/color_utils.rs. -/
def argb_from_xyz (tf : ℚ → ℚ) (x y z : ℚ) : ℕ :=
  let linear_r := xyz_to_srgb 0 0 * x + xyz_to_srgb 0 1 * y + xyz_to_srgb 0 2 * z
  let linear_g := xyz_to_srgb 1 0 * x + xyz_to_srgb 1 1 * y + xyz_to_srgb 1 2 * z
  let linear_b := xyz_to_srgb 2 0 * x + xyz_to_srgb 2 1 * y + xyz_to_srgb 2 2 * z
  argb_from_rgb (delinearized tf linear_r) (delinearized tf linear_g) (delinearized tf linear_b)

/-- Rust `lab_inv_f(ft)` from utils/color_utils.rs (exactly rational). -/
def lab_inv_f (ft : ℚ) : ℚ :=
  let e : ℚ := 216.0 / 24389.0
  let kappa : ℚ := 24389.0 / 27.0
  let ft3 := ft * ft * ft
  if ft3 > e then ft3 else (116 * ft - 16) / kappa

/-- Rust `y_from_lstar(lstar)`: `100.0 * lab_inv_f((lstar + 16.0) / 116.0)`. -/
def y_from_lstar (lstar : ℚ) : ℚ :=
  100 * lab_inv_f ((lstar + 16) / 116)

/-- Rust `argb_from_lstar(lstar)` from utils/color_utils.rs. -/
def argb_from_lstar (tf : ℚ → ℚ) (lstar : ℚ) : ℕ :=
  let y := y_from_lstar lstar
  let component := delinearized tf y
  argb_from_rgb component component component

/-- Rust `argb_from_lab(l, a, b)` from utils/color_utils.rs. -/
def argb_from_lab (tf : ℚ → ℚ) (l a b : ℚ) : ℕ :=
  let fy := (l + 16) / 116
  let fx := a / 500 + fy
  let fz := fy - b / 200
  let x_normalized := lab_inv_f fx
  let y_normalized := lab_inv_f fy
  let z_normalized := lab_inv_f fz
  let x := x_normalized * white_point_d65 0
  let y := y_normalized * white_point_d65 1
  let z := z_normalized * white_point_d65 2
  argb_from_xyz tf x y z

/-! ### Packing and extraction lemmas for ARGB integers -/

theorem lor_shiftLeft_eq_add (a b k : ℕ) (h : b < 2 ^ k) :
    a <<< k ||| b = a * 2 ^ k + b := by
  apply Nat.eq_of_testBit_eq
  intro i
  rw [Nat.testBit_lor, Nat.testBit_shiftLeft]
  rcases lt_or_ge i k with hik | hik
  · have hk : ¬ (i ≥ k) := by omega
    simp only [hk, decide_False, Bool.false_and, Bool.false_or]
    have hb : b = (a * 2 ^ k + b) % 2 ^ k := by
      rw [mul_comm a, Nat.mul_add_mod, Nat.mod_eq_of_lt h]
    conv_lhs => rw [hb]
    rw [Nat.testBit_mod_two_pow]
    simp [hik]
  · have hbi : b.testBit i = false :=
      Nat.testBit_lt_two_pow (lt_of_lt_of_le h (Nat.pow_le_pow_right (by norm_num) hik))
    have hk : i ≥ k := hik
    simp only [hbi, hk, decide_True, Bool.true_and, Bool.or_false]
    have hdiv : (a * 2 ^ k + b) >>> k = a := by
      rw [Nat.shiftRight_eq_div_pow, mul_comm a,
        Nat.mul_add_div (Nat.pos_pow_of_pos k (by norm_num)),
        Nat.div_eq_of_lt h, Nat.add_zero]
    conv_lhs => rw [← hdiv]
    rw [Nat.testBit_shiftRight]
    congr 1
    omega

theorem and_255_eq_mod (n : ℕ) : n &&& 255 = n % 256 := by
  have h := Nat.and_pow_two_sub_one_eq_mod n 8
  norm_num at h
  exact h

/-- Arithmetic characterization of the ARGB bit packing. -/
theorem argb_from_rgb_eq (r g b : ℕ) :
    argb_from_rgb r g b
      = 255 * 2 ^ 24 + (r % 256) * 2 ^ 16 + (g % 256) * 2 ^ 8 + b % 256 := by
  unfold argb_from_rgb
  rw [and_255_eq_mod r, and_255_eq_mod g, and_255_eq_mod b]
  rw [Nat.lor_assoc, Nat.lor_assoc]
  rw [lor_shiftLeft_eq_add (g % 256) (b % 256) 8 (by omega)]
  rw [lor_shiftLeft_eq_add (r % 256) _ 16 (by omega)]
  rw [lor_shiftLeft_eq_add 255 _ 24 (by omega)]
  omega

theorem alpha_argb_from_rgb (r g b : ℕ) :
    alpha_from_argb (argb_from_rgb r g b) = 255 := by
  rw [argb_from_rgb_eq]
  unfold alpha_from_argb
  rw [Nat.shiftRight_eq_div_pow, and_255_eq_mod]
  omega

theorem red_argb_from_rgb (r g b : ℕ) :
    red_from_argb (argb_from_rgb r g b) = r % 256 := by
  rw [argb_from_rgb_eq]
  unfold red_from_argb
  rw [Nat.shiftRight_eq_div_pow, and_255_eq_mod]
  omega

theorem green_argb_from_rgb (r g b : ℕ) :
    green_from_argb (argb_from_rgb r g b) = g % 256 := by
  rw [argb_from_rgb_eq]
  unfold green_from_argb
  rw [Nat.shiftRight_eq_div_pow, and_255_eq_mod]
  omega

theorem blue_argb_from_rgb (r g b : ℕ) :
    blue_from_argb (argb_from_rgb r g b) = b % 256 := by
  rw [argb_from_rgb_eq]
  unfold blue_from_argb
  rw [and_255_eq_mod]
  omega

theorem argb_from_rgb_lt (r g b : ℕ) : argb_from_rgb r g b < 2 ^ 32 := by
  rw [argb_from_rgb_eq]
  omega

theorem clamp_int_0_255_le (n : ℕ) : clamp_int 0 255 n ≤ 255 := by
  unfold clamp_int
  split
  · omega
  · split <;> omega

theorem delinearized_le (tf : ℚ → ℚ) (w : ℚ) : delinearized tf w ≤ 255 := by
  unfold delinearized
  exact clamp_int_0_255_le _

/-- C10: every ARGB value produced by the color conversions `argb_from_xyz`,
`argb_from_lab` and `argb_from_lstar` (and hence by `Cam16::viewed` and
`Hct::to_int`, which produce their output through `argb_from_xyz`) is fully
opaque and well-formed: the alpha byte is always 255, each color channel is
exactly the output of `delinearized` on the corresponding linear component,
`delinearized` clamps every input into [0, 255], and the packed value fits in
32 bits. -/
theorem C10_conversions_opaque_well_formed (tf : ℚ → ℚ) (x y z l a b ls w : ℚ) :
    alpha_from_argb (argb_from_xyz tf x y z) = 255 ∧
    alpha_from_argb (argb_from_lab tf l a b) = 255 ∧
    alpha_from_argb (argb_from_lstar tf ls) = 255 ∧
    red_from_argb (argb_from_xyz tf x y z)
      = delinearized tf (xyz_to_srgb 0 0 * x + xyz_to_srgb 0 1 * y + xyz_to_srgb 0 2 * z) ∧
    green_from_argb (argb_from_xyz tf x y z)
      = delinearized tf (xyz_to_srgb 1 0 * x + xyz_to_srgb 1 1 * y + xyz_to_srgb 1 2 * z) ∧
    blue_from_argb (argb_from_xyz tf x y z)
      = delinearized tf (xyz_to_srgb 2 0 * x + xyz_to_srgb 2 1 * y + xyz_to_srgb 2 2 * z) ∧
    delinearized tf w ≤ 255 ∧
    argb_from_xyz tf x y z < 2 ^ 32 ∧
    argb_from_lab tf l a b < 2 ^ 32 ∧
    argb_from_lstar tf ls < 2 ^ 32 := by
  have hmod : ∀ c : ℕ, c ≤ 255 → c % 256 = c := fun c hc => Nat.mod_eq_of_lt (by omega)
  refine ⟨?_, ?_, ?_, ?_, ?_, ?_, delinearized_le tf w, ?_, ?_, ?_⟩
  · exact alpha_argb_from_rgb _ _ _
  · unfold argb_from_lab
    exact alpha_argb_from_rgb _ _ _
  · exact alpha_argb_from_rgb _ _ _
  · unfold argb_from_xyz
    rw [red_argb_from_rgb]
    exact hmod _ (delinearized_le _ _)
  · unfold argb_from_xyz
    rw [green_argb_from_rgb]
    exact hmod _ (delinearized_le _ _)
  · unfold argb_from_xyz
    rw [blue_argb_from_rgb]
    exact hmod _ (delinearized_le _ _)
  · exact argb_from_rgb_lt _ _ _
  · unfold argb_from_lab argb_from_xyz
    exact argb_from_rgb_lt _ _ _
  · exact argb_from_rgb_lt _ _ _

/-! ## hct/cam16.rs — the CAM16-UCS block of the forward transform -/

/-- CAM16-UCS coordinates as computed at the end of
`Cam16::from_int_in_viewing_conditions` (src/hct/cam16.rs, `hue_radians` from
line 98 and the UCS block lines 132–137): given the CAM16 lightness `big_j`,
colorfulness `big_m` and the hue in degrees, return
`(jstar, mstar, astar, bstar)` where `mstar` is the intermediate feeding
`astar` and `bstar`. `log x e` in the source is the natural logarithm. -/
noncomputable def cam16_ucs (big_j big_m hue : ℝ) : ℝ × ℝ × ℝ × ℝ :=
  let hue_radians := hue * Real.pi / 180
  let jstar := (1 + 100 * 0.007) * big_j / (1 + 0.007 * big_j)
  let mstar := 1 / 0.0228 * Real.log (1 + 0.0228 * big_m)
  let astar := mstar * Real.cos hue_radians
  let bstar := mstar * Real.sin hue_radians
  (jstar, mstar, astar, bstar)

/-- C5 counterexample: at J = 100 the code computes J* = 100 (the leading
coefficient is `1.0 + 100.0*0.007 = 1.7`), while the claimed formula
`100.7·J/(1+0.007·J)` would give 10070/1.7 ≠ 100. -/
theorem C5_counterexample :
    (cam16_ucs 100 0 0).1 = 100 ∧ (100.7 * 100 / (1 + 0.007 * 100) : ℝ) ≠ 100 := by
  constructor
  · unfold cam16_ucs
    norm_num
  · norm_num

/-- C5 amended: the CAM16 forward transform computes the UCS coordinates as
J* = (1+100·0.007)·J/(1+0.007·J) = 1.7·J/(1+0.007·J) (not 100.7·J/(1+0.007·J)),
M* = ln(1+0.0228·M)/0.0228, a* = M*·cos(h) and b* = M*·sin(h) with h the hue
converted to radians. -/
theorem C5_ucs_formulas (big_j big_m hue : ℝ) :
    (cam16_ucs big_j big_m hue).1 = 1.7 * big_j / (1 + 0.007 * big_j) ∧
    (cam16_ucs big_j big_m hue).2.1 = Real.log (1 + 0.0228 * big_m) / 0.0228 ∧
    (cam16_ucs big_j big_m hue).2.2.1
      = (cam16_ucs big_j big_m hue).2.1 * Real.cos (hue * Real.pi / 180) ∧
    (cam16_ucs big_j big_m hue).2.2.2
      = (cam16_ucs big_j big_m hue).2.1 * Real.sin (hue * Real.pi / 180) := by
  unfold cam16_ucs
  refine ⟨by norm_num, by ring, rfl, rfl⟩

/-! ## score/mod.rs — run_filter -/

/-- Rust struct `Hct` (src/hct/mod.rs): hue, chroma and tone fields. -/
structure Hct where
  hue : ℚ
  chroma : ℚ
  tone : ℚ
  deriving DecidableEq

/-- Rust constant `CUT_OFF_CHROMA` from src/score/mod.rs. -/
def cut_off_chroma : ℚ := 5.0

/-- Rust constant `CUT_OFF_EXCITED_PROPORTION` from src/score/mod.rs. -/
def cut_off_excited_proportion : ℚ := 0.01

/-- Rust `run_filter` from src/score/mod.rs. The source iterates the
`argb_to_hct` map and looks each color's excited proportion up in
`colors_to_excited_proportion`; inside `score` both maps are built over the
same keys in the same order, so the two maps are modeled as one list of
`(color, hct, proportion)` entries. A color is pushed exactly when
`hct.chroma >= CUT_OFF_CHROMA && proportion > CUT_OFF_EXCITED_PROPORTION`. -/
def run_filter : List (ℕ × Hct × ℚ) → List ℕ
  | [] => []
  | (color, hct, proportion) :: rest =>
    if hct.chroma ≥ cut_off_chroma ∧ proportion > cut_off_excited_proportion then
      color :: run_filter rest
    else
      run_filter rest

/-- C3 counterexample: color 7 has tone 5 (below the claimed L* < 10 cutoff)
yet is retained by `run_filter`, and color 8 passes all three claimed
thresholds (its excited proportion 0.01 is not below 0.01) yet is removed:
the filter has no tone cutoff and rejects proportions equal to 0.01. -/
theorem C3_counterexample :
    run_filter [(7, ⟨0, 50, 5⟩, 1/2), (8, ⟨0, 50, 50⟩, 0.01)] = [7] ∧
    (5 : ℚ) < 10 ∧ ¬ ((0.01 : ℚ) < 0.01) := by
  refine ⟨?_, by norm_num, by norm_num⟩
  norm_num [run_filter, cut_off_chroma, cut_off_excited_proportion]

/-- C3 amended: with filtering enabled, a color is retained by the filter if
and only if its chroma is at least 5 and its excited hue proportion is
strictly greater than 0.01; there is no tone (L*) cutoff, and colors whose
excited proportion equals 0.01 are removed. -/
theorem C3_filter_characterization (entries : List (ℕ × Hct × ℚ)) (c : ℕ) :
    c ∈ run_filter entries ↔
      ∃ e ∈ entries, e.1 = c ∧ e.2.1.chroma ≥ cut_off_chroma ∧
        e.2.2 > cut_off_excited_proportion := by
  induction entries with
  | nil => simp [run_filter]
  | cons e rest ih =>
    obtain ⟨color, hct, proportion⟩ := e
    by_cases hcond : hct.chroma ≥ cut_off_chroma ∧ proportion > cut_off_excited_proportion
    · simp only [run_filter, if_pos hcond, List.mem_cons, ih]
      aesop
    · simp only [run_filter, if_neg hcond, ih, List.mem_cons]
      aesop

/-! ## quantize/point_provider_lab.rs and the WSMeans reassignment scan -/

/-- Rust `[f64; 3]` Lab point. -/
abbrev LabPoint : Type := ℚ × ℚ × ℚ

/-- Rust `PointProviderLab::distance`: squared CIE Lab distance (the square
root is deliberately omitted in the source). -/
def lab_distance (one two : LabPoint) : ℚ :=
  let d_l := one.1 - two.1
  let d_a := one.2.1 - two.2.1
  let d_b := one.2.2 - two.2.2
  d_l * d_l + d_a * d_a + d_b * d_b

theorem lab_distance_self (c : LabPoint) : lab_distance c c = 0 := by
  simp [lab_distance]

/-- Net result of the distance-matrix recomputation at the top of each
WSMeans iteration (src/quantize/wsmeans.rs lines 162–174): for `i ≠ j` the
entry holds the symmetric centroid distance, the diagonal keeps its initial
`0.0` (the recompute loop runs `j` from `i+1` and never writes the
diagonal). -/
def distance_matrix_entry (clusters : List LabPoint) (i j : ℕ) : ℚ :=
  if i = j then 0
  else lab_distance (clusters.getD i (0, 0, 0)) (clusters.getD j (0, 0, 0))

theorem distance_matrix_entry_eq (clusters : List LabPoint) (i j : ℕ) :
    distance_matrix_entry clusters i j
      = lab_distance (clusters.getD i (0, 0, 0)) (clusters.getD j (0, 0, 0)) := by
  unfold distance_matrix_entry
  split
  · next hij => rw [hij, lab_distance_self]
  · rfl

/-- Triangle-inequality consequence for squared distances: a centroid whose
(squared) distance from the point's current centroid is at least 4 times the
point's (squared) distance to the current centroid cannot be closer to the
point than the current centroid is. -/
theorem pruning_sound (p a b : LabPoint)
    (h : lab_distance a b ≥ 4 * lab_distance p a) :
    lab_distance p b ≥ lab_distance p a := by
  obtain ⟨p1, p2, p3⟩ := p
  obtain ⟨a1, a2, a3⟩ := a
  obtain ⟨b1, b2, b3⟩ := b
  simp only [lab_distance] at h ⊢
  nlinarith [sq_nonneg (a1 + b1 - 2 * p1), sq_nonneg (a2 + b2 - 2 * p2),
    sq_nonneg (a3 + b3 - 2 * p3)]

/-- Inner reassignment loop of src/quantize/wsmeans.rs lines 183–194,
with the pruning test against the distance matrix: iterates the candidate
cluster indices `js`, carrying `(minimum_distance, new_cluster_index)`. -/
def pruned_scan_loop (clusters : List LabPoint) (point : LabPoint)
    (previous_cluster_index : ℕ) (previous_distance : ℚ) :
    List ℕ → ℚ → ℤ → ℚ × ℤ
  | [], minimum_distance, new_cluster_index => (minimum_distance, new_cluster_index)
  | j :: js, minimum_distance, new_cluster_index =>
    if distance_matrix_entry clusters previous_cluster_index j ≥ 4 * previous_distance then
      pruned_scan_loop clusters point previous_cluster_index previous_distance js
        minimum_distance new_cluster_index
    else
      let distance := lab_distance point (clusters.getD j (0, 0, 0))
      if distance < minimum_distance then
        pruned_scan_loop clusters point previous_cluster_index previous_distance js
          distance (j : ℤ)
      else
        pruned_scan_loop clusters point previous_cluster_index previous_distance js
          minimum_distance new_cluster_index

/-- Exhaustive nearest-centroid scan, written from the specification: the same
loop with the pruning skip removed, examining every candidate cluster. -/
def exhaustive_scan_loop (clusters : List LabPoint) (point : LabPoint) :
    List ℕ → ℚ → ℤ → ℚ × ℤ
  | [], minimum_distance, new_cluster_index => (minimum_distance, new_cluster_index)
  | j :: js, minimum_distance, new_cluster_index =>
    let distance := lab_distance point (clusters.getD j (0, 0, 0))
    if distance < minimum_distance then
      exhaustive_scan_loop clusters point js distance (j : ℤ)
    else
      exhaustive_scan_loop clusters point js minimum_distance new_cluster_index

/-- Final cluster index the pruned reassignment pass assigns to a point
(src/quantize/wsmeans.rs lines 176–199): `-1` means "no move", keeping the
previous index. -/
def chosen_cluster_pruned (clusters : List LabPoint) (point : LabPoint)
    (previous_cluster_index : ℕ) : ℕ :=
  let previous_cluster := clusters.getD previous_cluster_index (0, 0, 0)
  let previous_distance := lab_distance point previous_cluster
  let r := (pruned_scan_loop clusters point previous_cluster_index previous_distance
    (List.range clusters.length) previous_distance (-1)).2
  if r = -1 then previous_cluster_index else r.toNat

/-- Final cluster index chosen by the exhaustive nearest-centroid scan
(specification-side definition). -/
def chosen_cluster_exhaustive (clusters : List LabPoint) (point : LabPoint)
    (previous_cluster_index : ℕ) : ℕ :=
  let previous_cluster := clusters.getD previous_cluster_index (0, 0, 0)
  let previous_distance := lab_distance point previous_cluster
  let r := (exhaustive_scan_loop clusters point
    (List.range clusters.length) previous_distance (-1)).2
  if r = -1 then previous_cluster_index else r.toNat

theorem scan_loops_eq (clusters : List LabPoint) (point : LabPoint)
    (previous_cluster_index : ℕ) (previous_distance : ℚ)
    (hprev : previous_distance
      = lab_distance point (clusters.getD previous_cluster_index (0, 0, 0))) :
    ∀ (js : List ℕ) (minimum_distance : ℚ) (new_cluster_index : ℤ),
      minimum_distance ≤ previous_distance →
      pruned_scan_loop clusters point previous_cluster_index previous_distance js
          minimum_distance new_cluster_index
        = exhaustive_scan_loop clusters point js minimum_distance new_cluster_index := by
  intro js
  induction js with
  | nil => intro _ _ _; rfl
  | cons j js ih =>
    intro minimum_distance new_cluster_index hmin
    rw [pruned_scan_loop, exhaustive_scan_loop]
    by_cases hskip :
        distance_matrix_entry clusters previous_cluster_index j ≥ 4 * previous_distance
    · rw [if_pos hskip]
      have hge : lab_distance point (clusters.getD j (0, 0, 0)) ≥ previous_distance := by
        rw [distance_matrix_entry_eq] at hskip
        rw [hprev]
        exact pruning_sound point _ _ (by rw [hprev] at hskip; exact hskip)
      have hnlt : ¬ lab_distance point (clusters.getD j (0, 0, 0)) < minimum_distance := by
        intro hlt
        exact absurd (lt_of_lt_of_le hlt hmin) (not_lt.2 hge)
      simp only [if_neg hnlt]
      exact ih minimum_distance new_cluster_index hmin
    · rw [if_neg hskip]
      dsimp only
      by_cases hlt : lab_distance point (clusters.getD j (0, 0, 0)) < minimum_distance
      · rw [if_pos hlt, if_pos hlt]
        exact ih _ _ (le_of_lt (lt_of_lt_of_le hlt hmin))
      · rw [if_neg hlt, if_neg hlt]
        exact ih minimum_distance new_cluster_index hmin

/-- C4: in a WSMeans reassignment pass, skipping every centroid whose
precomputed matrix distance from the point's current centroid is at least
4 times the point's (squared) distance to its current centroid never changes
the outcome: the cluster index chosen by the pruned loop equals the one the
exhaustive nearest-centroid scan over all clusters would choose. -/
theorem C4_pruned_scan_eq_exhaustive (clusters : List LabPoint) (point : LabPoint)
    (previous_cluster_index : ℕ) :
    chosen_cluster_pruned clusters point previous_cluster_index
      = chosen_cluster_exhaustive clusters point previous_cluster_index := by
  unfold chosen_cluster_pruned chosen_cluster_exhaustive
  dsimp only
  rw [scan_loops_eq clusters point previous_cluster_index _ rfl _ _ _ le_rfl]

/-! ## quantize/wsmeans.rs — final result extraction -/

/-- Rust `PointProviderLab::to_int`: `argb_from_lab(lab[0], lab[1], lab[2])`;
`tf` is the transcendental `powf(1/2.4)` branch of `delinearized`. -/
def point_provider_to_int (tf : ℚ → ℚ) (lab : LabPoint) : ℕ :=
  argb_from_lab tf lab.1 lab.2.1 lab.2.2

/-- Result-extraction loop of `QuantizerWsmeans::quantize`
(src/quantize/wsmeans.rs lines 240–255): walks the `(cluster, count)` pairs,
skips empty clusters, skips a cluster whose quantized ARGB was already
emitted, and otherwise pushes the ARGB and its own population. -/
def result_extraction_loop (to_int : LabPoint → ℕ) :
    List (LabPoint × ℕ) → List ℕ → List ℕ → List ℕ × List ℕ
  | [], cluster_argbs, cluster_populations => (cluster_argbs, cluster_populations)
  | (cluster, count) :: rest, cluster_argbs, cluster_populations =>
    if count = 0 then
      result_extraction_loop to_int rest cluster_argbs cluster_populations
    else
      let possible_new_cluster := to_int cluster
      if possible_new_cluster ∈ cluster_argbs then
        result_extraction_loop to_int rest cluster_argbs cluster_populations
      else
        result_extraction_loop to_int rest (cluster_argbs ++ [possible_new_cluster])
          (cluster_populations ++ [count])

/-- Final `color_to_count` list produced from `clusters` and
`pixel_count_sums` by the extraction step, zipped as in the source. -/
def result_extraction (to_int : LabPoint → ℕ) (clusters : List LabPoint)
    (pixel_count_sums : List ℕ) : List (ℕ × ℕ) :=
  let r := result_extraction_loop to_int (clusters.zip pixel_count_sums) [] []
  r.1.zip r.2

/-- Specification-side first-occurrence deduplication by key: keeps each key's
first entry, dropping every later entry with the same key. -/
def dedup_first_by_key : List (ℕ × ℕ) → List (ℕ × ℕ)
  | [] => []
  | (k, v) :: rest =>
    (k, v) :: dedup_first_by_key (rest.filter (fun e => e.1 ≠ k))
termination_by l => l.length
decreasing_by
  simp only [List.length_cons]
  exact Nat.lt_succ_of_le (List.length_filter_le _ _)

/-- Specification-side deduplication relative to a set of already-seen keys. -/
def dedup_excluding (seen : List ℕ) : List (ℕ × ℕ) → List (ℕ × ℕ)
  | [] => []
  | (k, v) :: rest =>
    if k ∈ seen then dedup_excluding seen rest
    else (k, v) :: dedup_excluding (seen ++ [k]) rest

theorem dedup_excluding_eq_filter (m : List (ℕ × ℕ)) :
    ∀ seen : List ℕ,
      dedup_excluding seen m = dedup_first_by_key (m.filter (fun e => e.1 ∉ seen)) := by
  induction m with
  | nil => intro seen; simp [dedup_excluding, dedup_first_by_key]
  | cons e rest ih =>
    intro seen
    obtain ⟨k, v⟩ := e
    by_cases hk : k ∈ seen
    · rw [dedup_excluding, if_pos hk]
      have hfilter : List.filter (fun e => decide (e.1 ∉ seen)) ((k, v) :: rest)
          = List.filter (fun e => decide (e.1 ∉ seen)) rest := by
        rw [List.filter_cons]
        simp [hk]
      rw [ih seen, hfilter]
    · rw [dedup_excluding, if_neg hk]
      have hfilter : List.filter (fun e => decide (e.1 ∉ seen)) ((k, v) :: rest)
          = (k, v) :: List.filter (fun e => decide (e.1 ∉ seen)) rest := by
        rw [List.filter_cons]
        simp [hk]
      rw [hfilter, dedup_first_by_key, ih (seen ++ [k])]
      congr 2
      rw [List.filter_filter]
      apply List.filter_congr
      intro e _
      simp only [List.mem_append, List.mem_singleton, decide_not]
      by_cases h1 : e.1 = k <;> by_cases h2 : e.1 ∈ seen <;> simp [h1, h2]

theorem result_extraction_loop_eq (to_int : LabPoint → ℕ) (l : List (LabPoint × ℕ)) :
    ∀ (accA accP : List ℕ),
      result_extraction_loop to_int l accA accP
        = (accA ++ (dedup_excluding accA
              ((l.filter (fun e => e.2 ≠ 0)).map (fun e => (to_int e.1, e.2)))).map Prod.fst,
           accP ++ (dedup_excluding accA
              ((l.filter (fun e => e.2 ≠ 0)).map (fun e => (to_int e.1, e.2)))).map Prod.snd) := by
  induction l with
  | nil => intro accA accP; simp [result_extraction_loop, dedup_excluding]
  | cons e rest ih =>
    intro accA accP
    obtain ⟨cluster, count⟩ := e
    by_cases hz : count = 0
    · rw [result_extraction_loop, if_pos hz]
      rw [ih accA accP]
      have : List.filter (fun e => decide (e.2 ≠ 0)) ((cluster, count) :: rest)
          = List.filter (fun e => decide (e.2 ≠ 0)) rest := by
        rw [List.filter_cons]
        simp [hz]
      rw [this]
    · rw [result_extraction_loop, if_neg hz]
      have hfilter : List.filter (fun e => decide (e.2 ≠ 0)) ((cluster, count) :: rest)
          = (cluster, count) :: List.filter (fun e => decide (e.2 ≠ 0)) rest := by
        rw [List.filter_cons]
        simp [hz]
      rw [hfilter]
      dsimp only [List.map_cons]
      by_cases hmem : to_int cluster ∈ accA
      · rw [if_pos hmem, ih accA accP, dedup_excluding, if_pos hmem]
      · rw [if_neg hmem, ih _ _, dedup_excluding, if_neg hmem]
        simp

/-- C2 counterexample: two non-empty clusters, the Lab points (0,0,0) and
(0.01,0,0) with populations 1 and 2, quantize to the same ARGB 0xFF000000
after the Lab→ARGB round trip, yet the extraction step emits that ARGB with
population 1 — the population of the first such cluster — not the sum 3: the
`continue` on a duplicate ARGB discards the later cluster's population
entirely. -/
theorem C2_counterexample :
    result_extraction (point_provider_to_int (fun _ => 0))
        [(0, 0, 0), (1/100, 0, 0)] [1, 2]
      = [(4278190080, 1)] ∧
    point_provider_to_int (fun _ => 0) (0, 0, 0)
      = point_provider_to_int (fun _ => 0) (1/100, 0, 0) ∧
    (1 : ℕ) ≠ 1 + 2 := by
  have hblack : point_provider_to_int (fun _ => 0) (0, 0, 0) = 4278190080 := by
    norm_num [point_provider_to_int, argb_from_lab, argb_from_xyz, white_point_d65,
      xyz_to_srgb, lab_inv_f, delinearized, rust_round_u32, clamp_int]
    decide
  have hsecond : point_provider_to_int (fun _ => 0) (1/100, 0, 0) = 4278190080 := by
    norm_num [point_provider_to_int, argb_from_lab, argb_from_xyz, white_point_d65,
      xyz_to_srgb, lab_inv_f, delinearized, rust_round_u32, clamp_int]
    decide
  refine ⟨?_, by rw [hblack, hsecond], by decide⟩
  simp only [result_extraction, List.zip, List.zipWith, result_extraction_loop,
    hblack, hsecond]

/-- C2 amended: the extraction step keeps, for each distinct quantized ARGB,
exactly one entry — the first non-empty cluster mapping to it — with that
cluster's own population (populations of later clusters quantizing to the
same ARGB are dropped, not summed), and clusters with zero population are
omitted. Formally, the result equals first-occurrence key-deduplication of
the zero-population-filtered `(ARGB, population)` sequence. -/
theorem C2_extraction_dedups_first (to_int : LabPoint → ℕ)
    (clusters : List LabPoint) (pixel_count_sums : List ℕ) :
    result_extraction to_int clusters pixel_count_sums
      = dedup_first_by_key
          (((clusters.zip pixel_count_sums).filter (fun e => e.2 ≠ 0)).map
            (fun e => (to_int e.1, e.2))) := by
  unfold result_extraction
  rw [result_extraction_loop_eq]
  dsimp only
  rw [dedup_excluding_eq_filter]
  have : List.filter (fun e => decide (e.1 ∉ ([] : List ℕ)))
      (((clusters.zip pixel_count_sums).filter (fun e => e.2 ≠ 0)).map
        (fun e => (to_int e.1, e.2)))
      = ((clusters.zip pixel_count_sums).filter (fun e => e.2 ≠ 0)).map
          (fun e => (to_int e.1, e.2)) := by
    apply List.filter_eq_self.2
    intro e _
    simp
  rw [this]
  generalize dedup_first_by_key _ = d
  induction d with
  | nil => rfl
  | cons e rest ih =>
    simp [List.zip, List.zipWith, ih]

/-! ## quantize/map.rs and Wu histogram construction -/

/-- Keyed lookup in an association list (an `IndexMap` keyed access). -/
def alist_lookup : List (ℕ × ℕ) → ℕ → Option ℕ
  | [], _ => none
  | (k, v) :: rest, p => if k = p then some v else alist_lookup rest p

/-- Rust `*count_by_color.entry(pixel).or_insert(0) += 1` on an `IndexMap`:
a first occurrence appends the key with count 1, a later occurrence bumps the
count in place, preserving insertion order. -/
def bump_entry : List (ℕ × ℕ) → ℕ → List (ℕ × ℕ)
  | [], p => [(p, 1)]
  | (k, v) :: rest, p =>
    if k = p then (k, v + 1) :: rest else (k, v) :: bump_entry rest p

/-- Rust `QuantizerMap::quantize` (src/quantize/map.rs lines 10–25): every
pixel with `alpha < 255` is skipped, the rest are counted per color in
first-seen order. -/
def quantizer_map_quantize (pixels : List ℕ) : List (ℕ × ℕ) :=
  pixels.foldl
    (fun acc pixel =>
      if alpha_from_argb pixel < 255 then acc else bump_entry acc pixel) []

/-- Number of occurrences of `p` in `pixels`. -/
def count_in (pixels : List ℕ) (p : ℕ) : ℕ :=
  (pixels.filter (fun q => q = p)).length

theorem alpha_from_argb_le (n : ℕ) : alpha_from_argb n ≤ 255 := by
  unfold alpha_from_argb
  rw [and_255_eq_mod]
  omega

theorem alist_lookup_bump_self (q : ℕ) :
    ∀ acc : List (ℕ × ℕ),
      alist_lookup (bump_entry acc q) q = some ((alist_lookup acc q).getD 0 + 1) := by
  intro acc
  induction acc with
  | nil => simp [bump_entry, alist_lookup]
  | cons e rest ih =>
    obtain ⟨k, v⟩ := e
    by_cases hkq : k = q
    · subst hkq
      simp [bump_entry, alist_lookup]
    · simp [bump_entry, alist_lookup, hkq, ih]

theorem alist_lookup_bump_other (q p : ℕ) (hpq : p ≠ q) :
    ∀ acc : List (ℕ × ℕ),
      alist_lookup (bump_entry acc q) p = alist_lookup acc p := by
  intro acc
  have hqp : ¬ (q = p) := fun h => hpq h.symm
  induction acc with
  | nil => simp [bump_entry, alist_lookup, hqp]
  | cons e rest ih =>
    obtain ⟨k, v⟩ := e
    by_cases hkq : k = q
    · subst hkq
      simp [bump_entry, alist_lookup, hqp]
    · simp [bump_entry, alist_lookup, hkq, ih]

theorem quantizer_map_fold (p : ℕ) :
    ∀ (pixels : List ℕ) (acc : List (ℕ × ℕ)),
      alist_lookup
          (pixels.foldl
            (fun acc pixel =>
              if alpha_from_argb pixel < 255 then acc else bump_entry acc pixel) acc) p
        = if alpha_from_argb p = 255 ∧ p ∈ pixels
          then some ((alist_lookup acc p).getD 0 + count_in pixels p)
          else alist_lookup acc p := by
  intro pixels
  induction pixels with
  | nil => intro acc; simp
  | cons q rest ih =>
    intro acc
    rw [List.foldl_cons]
    by_cases hpq : p = q
    · subst hpq
      have hcnt : count_in (p :: rest) p = count_in rest p + 1 := by
        simp [count_in, List.filter_cons]
      by_cases hq : alpha_from_argb p < 255
      · rw [if_pos hq, ih acc]
        have h255 : ¬ (alpha_from_argb p = 255) := by omega
        simp [h255]
      · have h255 : alpha_from_argb p = 255 := by
          have := alpha_from_argb_le p
          omega
        rw [if_neg hq, ih (bump_entry acc p)]
        have hb : alist_lookup (bump_entry acc p) p
            = some ((alist_lookup acc p).getD 0 + 1) := alist_lookup_bump_self p acc
        have hmemc : p ∈ p :: rest := List.mem_cons_self p rest
        by_cases hmem : p ∈ rest
        · rw [if_pos ⟨h255, hmem⟩, if_pos ⟨h255, hmemc⟩, hb, hcnt]
          simp only [Option.getD_some, Option.some.injEq]
          omega
        · rw [if_neg (fun hcon => hmem hcon.2), if_pos ⟨h255, hmemc⟩, hb, hcnt]
          have hz : count_in rest p = 0 := by
            rw [count_in, List.length_eq_zero, List.filter_eq_nil_iff]
            intro a ha hdec
            exact hmem ((of_decide_eq_true hdec) ▸ ha)
          rw [hz]
    · have hqp : ¬ (q = p) := fun h => hpq h.symm
      have hcnt : count_in (q :: rest) p = count_in rest p := by
        simp [count_in, List.filter_cons, hqp]
      by_cases hq : alpha_from_argb q < 255
      · rw [if_pos hq, ih acc, hcnt]
        simp only [List.mem_cons, hpq, false_or]
      · rw [if_neg hq, ih (bump_entry acc q), alist_lookup_bump_other q p hpq, hcnt]
        simp only [List.mem_cons, hpq, false_or]

/-- Rust `QuantizerWu::INDEX_BITS`. -/
def index_bits : ℕ := 5

/-- Rust `QuantizerWu::get_index(r, g, b)` from src/quantize/wu.rs. -/
def get_index (r g b : ℕ) : ℕ :=
  (r <<< (index_bits * 2)) + (r <<< (index_bits + 1)) + (g <<< index_bits) + r + g + b

/-- Reduced RGB index of a pixel: the histogram cell `construct_histogram`
accumulates the pixel into (5 significant bits per channel, 1-based). -/
def reduced_index (pixel : ℕ) : ℕ :=
  let bits_to_remove := 8 - index_bits
  get_index ((red_from_argb pixel >>> bits_to_remove) + 1)
    ((green_from_argb pixel >>> bits_to_remove) + 1)
    ((blue_from_argb pixel >>> bits_to_remove) + 1)

/-- Wu histogram state: the five moment arrays of `QuantizerWu`, as total
functions from cell index. -/
structure Histogram where
  weights : ℕ → ℕ
  moments_r : ℕ → ℕ
  moments_g : ℕ → ℕ
  moments_b : ℕ → ℕ
  moments : ℕ → ℚ

/-- All-zero histogram (the freshly reset arrays). -/
def init_histogram : Histogram :=
  ⟨fun _ => 0, fun _ => 0, fun _ => 0, fun _ => 0, fun _ => 0⟩

/-- Body of the `construct_histogram` loop (src/quantize/wu.rs lines 72–86):
accumulate one `(pixel, count)` entry into the pixel's reduced-index cell. -/
def hist_add (h : Histogram) (pixel count : ℕ) : Histogram :=
  let red := red_from_argb pixel
  let green := green_from_argb pixel
  let blue := blue_from_argb pixel
  let index := reduced_index pixel
  { weights := fun i => if i = index then h.weights i + count else h.weights i
    moments_r := fun i => if i = index then h.moments_r i + red * count else h.moments_r i
    moments_g := fun i => if i = index then h.moments_g i + green * count else h.moments_g i
    moments_b := fun i => if i = index then h.moments_b i + blue * count else h.moments_b i
    moments := fun i =>
      if i = index then
        h.moments i + ((count * (red * red + green * green + blue * blue) : ℕ) : ℚ)
      else h.moments i }

/-- Rust `QuantizerWu::construct_histogram` over the (already
alpha-filtered) color-to-count entries. -/
def construct_histogram (entries : List (ℕ × ℕ)) : Histogram :=
  entries.foldl (fun h e => hist_add h e.1 e.2) init_histogram

theorem construct_histogram_fold (c : ℕ) :
    ∀ (entries : List (ℕ × ℕ)) (h : Histogram),
      (entries.foldl (fun h e => hist_add h e.1 e.2) h).weights c
        = h.weights c
          + (((entries.filter (fun e => reduced_index e.1 = c)).map Prod.snd).sum) ∧
      (entries.foldl (fun h e => hist_add h e.1 e.2) h).moments_r c
        = h.moments_r c
          + (((entries.filter (fun e => reduced_index e.1 = c)).map
              (fun e => red_from_argb e.1 * e.2)).sum) ∧
      (entries.foldl (fun h e => hist_add h e.1 e.2) h).moments_g c
        = h.moments_g c
          + (((entries.filter (fun e => reduced_index e.1 = c)).map
              (fun e => green_from_argb e.1 * e.2)).sum) ∧
      (entries.foldl (fun h e => hist_add h e.1 e.2) h).moments_b c
        = h.moments_b c
          + (((entries.filter (fun e => reduced_index e.1 = c)).map
              (fun e => blue_from_argb e.1 * e.2)).sum) ∧
      (entries.foldl (fun h e => hist_add h e.1 e.2) h).moments c
        = h.moments c
          + (((entries.filter (fun e => reduced_index e.1 = c)).map
              (fun e => ((e.2 * (red_from_argb e.1 * red_from_argb e.1
                  + green_from_argb e.1 * green_from_argb e.1
                  + blue_from_argb e.1 * blue_from_argb e.1) : ℕ) : ℚ))).sum) := by
  intro entries
  induction entries with
  | nil => intro h; simp
  | cons e rest ih =>
    intro h
    obtain ⟨pixel, count⟩ := e
    rw [List.foldl_cons]
    obtain ⟨ihw, ihr, ihg, ihb, ihm⟩ := ih (hist_add h pixel count)
    rw [List.filter_cons]
    by_cases hc : reduced_index pixel = c
    · simp only [hc, decide_True, if_true, List.map_cons, List.sum_cons]
      refine ⟨?_, ?_, ?_, ?_, ?_⟩
      · rw [ihw]
        simp [hist_add, hc]
        omega
      · rw [ihr]
        simp [hist_add, hc]
        omega
      · rw [ihg]
        simp [hist_add, hc]
        omega
      · rw [ihb]
        simp [hist_add, hc]
        omega
      · rw [ihm]
        simp [hist_add, hc]
        ring
    · have hc2 : ¬ (c = reduced_index pixel) := fun h => hc h.symm
      simp only [hc, decide_False, if_false]
      refine ⟨?_, ?_, ?_, ?_, ?_⟩
      · rw [ihw]
        simp [hist_add, hc2]
      · rw [ihr]
        simp [hist_add, hc2]
      · rw [ihg]
        simp [hist_add, hc2]
      · rw [ihb]
        simp [hist_add, hc2]
      · rw [ihm]
        simp [hist_add, hc2]

/-- C6 counterexample: the pixel 0x80FF0000 has alpha 128 — not fully
transparent — yet `QuantizerMap::quantize` discards it, so it contributes
nothing to the histogram: the filter drops every pixel with alpha < 255, not
just alpha = 0. -/
theorem C6_counterexample :
    quantizer_map_quantize [2164195328] = [] ∧
    alpha_from_argb 2164195328 = 128 ∧ (128 : ℕ) ≠ 0 := by
  refine ⟨by decide, by decide, by decide⟩

/-- C6 amended: during alpha filtering exactly the pixels that are not fully
opaque (alpha < 255) are discarded before histogram construction; each fully
opaque pixel is counted (with its multiplicity) in the color-to-count map,
and histogram construction accumulates each retained color's count and
moments into the cell of its reduced RGB index. -/
theorem C6_alpha_filter_histogram (pixels : List ℕ) (p c : ℕ) :
    (alist_lookup (quantizer_map_quantize pixels) p
      = if alpha_from_argb p = 255 ∧ p ∈ pixels
        then some (count_in pixels p) else none) ∧
    ((construct_histogram (quantizer_map_quantize pixels)).weights c
      = (((quantizer_map_quantize pixels).filter
            (fun e => reduced_index e.1 = c)).map Prod.snd).sum) ∧
    ((construct_histogram (quantizer_map_quantize pixels)).moments_r c
      = (((quantizer_map_quantize pixels).filter
            (fun e => reduced_index e.1 = c)).map
          (fun e => red_from_argb e.1 * e.2)).sum) ∧
    ((construct_histogram (quantizer_map_quantize pixels)).moments_g c
      = (((quantizer_map_quantize pixels).filter
            (fun e => reduced_index e.1 = c)).map
          (fun e => green_from_argb e.1 * e.2)).sum) ∧
    ((construct_histogram (quantizer_map_quantize pixels)).moments_b c
      = (((quantizer_map_quantize pixels).filter
            (fun e => reduced_index e.1 = c)).map
          (fun e => blue_from_argb e.1 * e.2)).sum) ∧
    ((construct_histogram (quantizer_map_quantize pixels)).moments c
      = (((quantizer_map_quantize pixels).filter
            (fun e => reduced_index e.1 = c)).map
          (fun e => ((e.2 * (red_from_argb e.1 * red_from_argb e.1
              + green_from_argb e.1 * green_from_argb e.1
              + blue_from_argb e.1 * blue_from_argb e.1) : ℕ) : ℚ))).sum) := by
  obtain ⟨hw, hr, hg, hb, hm⟩ :=
    construct_histogram_fold c (quantizer_map_quantize pixels) init_histogram
  refine ⟨?_, ?_, ?_, ?_, ?_, ?_⟩
  · have h := quantizer_map_fold p pixels []
    rw [quantizer_map_quantize, h]
    simp [alist_lookup]
  · rw [construct_histogram, hw]
    simp [init_histogram]
  · rw [construct_histogram, hr]
    simp [init_histogram]
  · rw [construct_histogram, hg]
    simp [init_histogram]
  · rw [construct_histogram, hb]
    simp [init_histogram]
  · rw [construct_histogram, hm]
    simp [init_histogram]

/-! ## quantize/wsmeans.rs — the full WSMeans pipeline

`PointProviderLab::from_int`/`to_int` (transcendental Lab conversions) are
abstracted as the parameters `from_int` and `to_int`; the seeded
`StdRng::seed_from_u64(0x42688)` is abstracted as the stream `rng`, whose
`k`-th `gen_range(0..n)` call returns `rng k % n`. Everything else is
translated from the source. -/

/-- Pixel-dedup loop at the top of `QuantizerWsmeans::quantize`
(src/quantize/wsmeans.rs lines 56–68): returns the
`(pixel_to_count, points, pixels)` triple; a pixel enters `points`/`pixels`
on its first occurrence. -/
def ws_dedup (from_int : ℕ → LabPoint) (input_pixels : List ℕ) :
    List (ℕ × ℕ) × List LabPoint × List ℕ :=
  input_pixels.foldl
    (fun acc input_pixel =>
      let m := bump_entry acc.1 input_pixel
      if (alist_lookup acc.1 input_pixel).isNone then
        (m, acc.2.1 ++ [from_int input_pixel], acc.2.2 ++ [input_pixel])
      else
        (m, acc.2.1, acc.2.2))
    ([], [], [])

/-- Retry loop for a fresh random index (src/quantize/wsmeans.rs lines
104–107). The Rust loop redraws until the index is unused; the model bounds
the retries by `fuel` and, if exhausted, keeps the last draw (the bound is
irrelevant to the claims proved here, which never reach this code path with
contested draws). Returns the drawn index and the advanced stream counter. -/
def find_fresh (rng : ℕ → ℕ) (len : ℕ) (indices : List ℕ) :
    ℕ → ℕ → ℕ × ℕ
  | 0, counter => (rng counter % len, counter + 1)
  | fuel + 1, counter =>
    let index := rng counter % len
    if index ∈ indices then find_fresh rng len indices fuel (counter + 1)
    else (index, counter + 1)

/-- Selection of the additional seed indices (src/quantize/wsmeans.rs lines
86–109). -/
def pick_extra_indices (rng : ℕ → ℕ) (len additional : ℕ) : List ℕ :=
  ((List.range additional).foldl
    (fun (acc : List ℕ × ℕ) _ =>
      let r := find_fresh rng len acc.1 (len + 1) acc.2
      (acc.1 ++ [r.1], r.2))
    ([], 0)).1

/-- One reassignment pass (src/quantize/wsmeans.rs lines 176–199): runs the
pruned nearest-centroid scan for every point, returning
`(points_moved, cluster_indices)`. Only the first `cluster_count` clusters
are scanned, as in `for j in 0..cluster_count`. -/
def ws_reassign (clusters : List LabPoint) (cluster_count : ℕ)
    (points : List LabPoint) (cluster_indices : List ℕ) : ℕ × List ℕ :=
  (List.range points.length).foldl
    (fun acc i =>
      let point := points.getD i (0, 0, 0)
      let previous_cluster_index := cluster_indices.getD i 0
      let previous_cluster := clusters.getD previous_cluster_index (0, 0, 0)
      let previous_distance := lab_distance point previous_cluster
      let r := (pruned_scan_loop clusters point previous_cluster_index previous_distance
        (List.range cluster_count) previous_distance (-1)).2
      if r ≠ -1 then (acc.1 + 1, acc.2.set i r.toNat) else acc)
    (0, cluster_indices)

/-- Accumulation of per-cluster population and Lab component sums
(src/quantize/wsmeans.rs lines 211–226, also the debug recount lines
139–146): returns `(pixel_count_sums, component_a_sums, component_b_sums,
component_c_sums)`. -/
def ws_accumulate (cluster_count : ℕ) (points : List LabPoint) (counts : List ℕ)
    (cluster_indices : List ℕ) : List ℕ × List ℚ × List ℚ × List ℚ :=
  (List.range points.length).foldl
    (fun acc i =>
      let cluster_index := cluster_indices.getD i 0
      let point := points.getD i (0, 0, 0)
      let count := counts.getD i 0
      (acc.1.set cluster_index (acc.1.getD cluster_index 0 + count),
       acc.2.1.set cluster_index (acc.2.1.getD cluster_index 0 + point.1 * count),
       acc.2.2.1.set cluster_index (acc.2.2.1.getD cluster_index 0 + point.2.1 * count),
       acc.2.2.2.set cluster_index (acc.2.2.2.getD cluster_index 0 + point.2.2 * count)))
    (List.replicate cluster_count 0, List.replicate cluster_count 0,
     List.replicate cluster_count 0, List.replicate cluster_count 0)

/-- The bounded k-means iteration loop (src/quantize/wsmeans.rs lines
137–238), as structural recursion on the remaining iteration count. State is
`(clusters, cluster_indices, pixel_count_sums)`. When `debug` is set the
source recounts `pixel_count_sums` at the top of each iteration (lines
138–159); the early break (`points_moved == 0 && iteration > 0`) returns the
state before the centroid recomputation. -/
def kmeans_loop (points : List LabPoint) (counts : List ℕ) (cluster_count : ℕ)
    (debug : Bool) :
    ℕ → ℕ → List LabPoint × List ℕ × List ℕ → List LabPoint × List ℕ × List ℕ
  | 0, _, state => state
  | remaining + 1, iteration, (clusters, cluster_indices, pixel_count_sums) =>
    let pixel_count_sums :=
      if debug then (ws_accumulate cluster_count points counts cluster_indices).1
      else pixel_count_sums
    let moved := ws_reassign clusters cluster_count points cluster_indices
    if moved.1 = 0 ∧ iteration > 0 then
      (clusters, moved.2, pixel_count_sums)
    else
      let acc := ws_accumulate cluster_count points counts moved.2
      let clusters' := (List.range cluster_count).map (fun i =>
        if acc.1.getD i 0 = 0 then ((0 : ℚ), (0 : ℚ), (0 : ℚ))
        else (acc.2.1.getD i 0 / (acc.1.getD i 0 : ℚ),
              acc.2.2.1.getD i 0 / (acc.1.getD i 0 : ℚ),
              acc.2.2.2.getD i 0 / (acc.1.getD i 0 : ℚ)))
      kmeans_loop points counts cluster_count debug remaining (iteration + 1)
        (clusters', moved.2, acc.1)

/-- Rust `QuantizerWsmeans::quantize` (src/quantize/wsmeans.rs lines 54–288),
returning the final `color_to_count` association list. The
`input_pixel_to_cluster_pixel` side output is only built when
`return_input_pixel_to_cluster_pixel` is set, which no caller in the claims
does, and is omitted. `additional_clusters_needed` is `ℕ` subtraction: the
Rust `usize` subtraction would panic when more starting clusters than
`cluster_count` are supplied, a case no claim exercises. -/
def ws_quantize (from_int : ℕ → LabPoint) (to_int : LabPoint → ℕ) (rng : ℕ → ℕ)
    (debug : Bool) (starting_clusters : List ℕ) (max_iterations : ℕ)
    (input_pixels : List ℕ) (max_colors : ℕ) : List (ℕ × ℕ) :=
  let d := ws_dedup from_int input_pixels
  let pixel_to_count := d.1
  let points := d.2.1
  let pixels := d.2.2
  let point_count := points.length
  let counts := pixels.map (fun p => (alist_lookup pixel_to_count p).getD 0)
  let cluster_count := min max_colors point_count
  let clusters0 := starting_clusters.map from_int
  let additional_clusters_needed := cluster_count - clusters0.length
  let clusters1 :=
    if additional_clusters_needed > 0 then
      clusters0 ++ (pick_extra_indices rng points.length additional_clusters_needed).map
        (fun idx => points.getD idx (0, 0, 0))
    else clusters0
  let cluster_indices := (List.range point_count).map (fun index => index % cluster_count)
  let pixel_count_sums := List.replicate cluster_count 0
  let final := kmeans_loop points counts cluster_count debug max_iterations 0
    (clusters1, cluster_indices, pixel_count_sums)
  result_extraction to_int final.1 final.2.2

theorem ws_accumulate_empty (ci : List ℕ) :
    ws_accumulate 0 [] [] ci = ([], [], [], []) := rfl

theorem ws_reassign_empty (clusters : List LabPoint) (ci : List ℕ) :
    ws_reassign clusters 0 [] ci = (0, ci) := rfl

theorem kmeans_loop_empty_sums (debug : Bool) :
    ∀ (remaining iteration : ℕ) (clusters : List LabPoint) (cluster_indices : List ℕ),
      (kmeans_loop [] [] 0 debug remaining iteration
          (clusters, cluster_indices, [])).2.2 = [] := by
  intro remaining
  induction remaining with
  | zero => intro iteration clusters cluster_indices; rfl
  | succ rem ih =>
    intro iteration clusters cluster_indices
    rw [kmeans_loop]
    simp only [ws_accumulate_empty, ws_reassign_empty, List.range_zero, List.map_nil,
      ite_self]
    by_cases hiter : iteration > 0
    · rw [if_pos ⟨trivial, hiter⟩]
    · rw [if_neg (fun hc => hiter hc.2)]
      exact ih (iteration + 1) [] cluster_indices

/-- Extraction on the empty cluster list yields the empty map. -/
theorem result_extraction_nil (to_int : LabPoint → ℕ) (clusters : List LabPoint) :
    result_extraction to_int clusters [] = [] := by
  unfold result_extraction
  rw [List.zip_nil_right]
  rfl

/-- WSMeans on an empty pixel slice returns the empty color-to-count map, for
every oracle, starting-cluster list, iteration bound and `max_colors`. -/
theorem ws_quantize_nil (from_int : ℕ → LabPoint) (to_int : LabPoint → ℕ)
    (rng : ℕ → ℕ) (debug : Bool) (max_iterations max_colors : ℕ) :
    ws_quantize from_int to_int rng debug [] max_iterations [] max_colors = [] := by
  have h2 : (kmeans_loop [] [] 0 debug max_iterations 0 ([], [], [])).2.2 = [] :=
    kmeans_loop_empty_sums debug max_iterations 0 [] []
  unfold ws_quantize ws_dedup
  simp only [List.foldl_nil, List.length_nil, Nat.min_zero, List.map_nil,
    Nat.sub_zero, gt_iff_lt, lt_self_iff_false, if_false, List.range_zero,
    List.replicate_zero]
  rw [h2, result_extraction_nil]

/-! ## quantize/wu.rs — the Wu statistical quantizer

The moment arrays are modeled as total functions (see `Histogram`).
Intermediate inclusion–exclusion sums (`volume`, `bottom`, `top`) are
computed over `ℤ`: the source computes them in `u32`/`i32` (where a negative
intermediate would panic via `try_into().unwrap()` or wrap); on the inputs a
panic-free run sees, the integer values coincide. -/

/-- Rust `SIDE_LENGTH` (33) minus the 1-offset: the prefix passes run the
indices 1..=32, i.e. `List.range' 1 32`. -/
def side_range : List ℕ := List.range' 1 32

/-- Rust struct `Cube` from src/quantize/wu.rs. -/
structure Cube where
  r0 : ℕ
  r1 : ℕ
  g0 : ℕ
  g1 : ℕ
  b0 : ℕ
  b1 : ℕ
  vol : ℕ
  deriving DecidableEq

instance : Inhabited Cube := ⟨⟨0, 0, 0, 0, 0, 0, 0⟩⟩

/-- Rust `Direction` from src/quantize/wu.rs. -/
inductive Direction where
  | red
  | green
  | blue

/-- Area accumulators of `compute_moments` (re-initialized per red level). -/
structure MomentAreas where
  area : ℕ → ℕ
  area_r : ℕ → ℕ
  area_g : ℕ → ℕ
  area_b : ℕ → ℕ
  area2 : ℕ → ℚ

/-- Line accumulators of `compute_moments` (re-initialized per green line). -/
structure MomentLines where
  line : ℕ
  line_r : ℕ
  line_g : ℕ
  line_b : ℕ
  line2 : ℚ

/-- Innermost step of `QuantizerWu::compute_moments`
(src/quantize/wu.rs lines 101–121) for fixed `r`, `g` at blue level `b`. -/
def compute_moments_b_step (r g : ℕ) (st : Histogram × MomentAreas × MomentLines)
    (b : ℕ) : Histogram × MomentAreas × MomentLines :=
  let hist := st.1
  let areas := st.2.1
  let lines := st.2.2
  let index := get_index r g b
  let line := lines.line + hist.weights index
  let line_r := lines.line_r + hist.moments_r index
  let line_g := lines.line_g + hist.moments_g index
  let line_b := lines.line_b + hist.moments_b index
  let line2 := lines.line2 + hist.moments index
  let area := fun i => if i = b then areas.area i + line else areas.area i
  let area_r := fun i => if i = b then areas.area_r i + line_r else areas.area_r i
  let area_g := fun i => if i = b then areas.area_g i + line_g else areas.area_g i
  let area_b := fun i => if i = b then areas.area_b i + line_b else areas.area_b i
  let area2 := fun i => if i = b then areas.area2 i + line2 else areas.area2 i
  let previous_index := get_index (r - 1) g b
  let hist' : Histogram :=
    { weights := fun i => if i = index then hist.weights previous_index + area b
        else hist.weights i
      moments_r := fun i => if i = index then hist.moments_r previous_index + area_r b
        else hist.moments_r i
      moments_g := fun i => if i = index then hist.moments_g previous_index + area_g b
        else hist.moments_g i
      moments_b := fun i => if i = index then hist.moments_b previous_index + area_b b
        else hist.moments_b i
      moments := fun i => if i = index then hist.moments previous_index + area2 b
        else hist.moments i }
  (hist', ⟨area, area_r, area_g, area_b, area2⟩, ⟨line, line_r, line_g, line_b, line2⟩)

/-- Rust `QuantizerWu::compute_moments` (src/quantize/wu.rs lines 88–124):
three nested prefix passes turning the arrays into summed-volume tables. -/
def compute_moments (h : Histogram) : Histogram :=
  side_range.foldl
    (fun hcur r =>
      let init_areas : MomentAreas :=
        ⟨fun _ => 0, fun _ => 0, fun _ => 0, fun _ => 0, fun _ => 0⟩
      (side_range.foldl
        (fun (sg : Histogram × MomentAreas) g =>
          let inner := side_range.foldl (compute_moments_b_step r g)
            (sg.1, sg.2, ⟨0, 0, 0, 0, 0⟩)
          (inner.1, inner.2.1))
        (hcur, init_areas)).1)
    h

/-- Rust `QuantizerWu::volume(cube, moment)` (8-term inclusion–exclusion). -/
def wu_volume (cube : Cube) (moment : ℕ → ℕ) : ℤ :=
  (moment (get_index cube.r1 cube.g1 cube.b1) : ℤ)
    - moment (get_index cube.r1 cube.g1 cube.b0)
    - moment (get_index cube.r1 cube.g0 cube.b1)
    + moment (get_index cube.r1 cube.g0 cube.b0)
    - moment (get_index cube.r0 cube.g1 cube.b1)
    + moment (get_index cube.r0 cube.g1 cube.b0)
    + moment (get_index cube.r0 cube.g0 cube.b1)
    - moment (get_index cube.r0 cube.g0 cube.b0)

/-- Rust `QuantizerWu::bottom(cube, direction, moment)`. -/
def wu_bottom (cube : Cube) (direction : Direction) (moment : ℕ → ℕ) : ℤ :=
  match direction with
  | .red =>
    -(moment (get_index cube.r0 cube.g1 cube.b1) : ℤ)
      + moment (get_index cube.r0 cube.g1 cube.b0)
      + moment (get_index cube.r0 cube.g0 cube.b1)
      - moment (get_index cube.r0 cube.g0 cube.b0)
  | .green =>
    -(moment (get_index cube.r1 cube.g0 cube.b1) : ℤ)
      + moment (get_index cube.r1 cube.g0 cube.b0)
      + moment (get_index cube.r0 cube.g0 cube.b1)
      - moment (get_index cube.r0 cube.g0 cube.b0)
  | .blue =>
    -(moment (get_index cube.r1 cube.g1 cube.b0) : ℤ)
      + moment (get_index cube.r1 cube.g0 cube.b0)
      + moment (get_index cube.r0 cube.g1 cube.b0)
      - moment (get_index cube.r0 cube.g0 cube.b0)

/-- Rust `QuantizerWu::top(cube, direction, position, moment)`. -/
def wu_top (cube : Cube) (direction : Direction) (position : ℕ)
    (moment : ℕ → ℕ) : ℤ :=
  match direction with
  | .red =>
    (moment (get_index position cube.g1 cube.b1) : ℤ)
      - moment (get_index position cube.g1 cube.b0)
      - moment (get_index position cube.g0 cube.b1)
      + moment (get_index position cube.g0 cube.b0)
  | .green =>
    (moment (get_index cube.r1 position cube.b1) : ℤ)
      - moment (get_index cube.r1 position cube.b0)
      - moment (get_index cube.r0 position cube.b1)
      + moment (get_index cube.r0 position cube.b0)
  | .blue =>
    (moment (get_index cube.r1 cube.g1 position) : ℤ)
      - moment (get_index cube.r1 cube.g0 position)
      - moment (get_index cube.r0 cube.g1 position)
      + moment (get_index cube.r0 cube.g0 position)

/-- Rust `QuantizerWu::maximize` (src/quantize/wu.rs lines 276–329): scans
candidate cut planes `first..last`, returning `(maximum, cut_location)`;
`cut_location` is `-1` when no plane was usable. The `temp` sums of squares
are divided with the source's `u32` integer division. -/
def wu_maximize (h : Histogram) (cube : Cube) (direction : Direction)
    (first last : ℕ) (whole_r whole_g whole_b whole_w : ℤ) : ℚ × ℤ :=
  let bottom_r := wu_bottom cube direction h.moments_r
  let bottom_g := wu_bottom cube direction h.moments_g
  let bottom_b := wu_bottom cube direction h.moments_b
  let bottom_w := wu_bottom cube direction h.weights
  (List.range' first (last - first)).foldl
    (fun (acc : ℚ × ℤ) i =>
      let half_r := bottom_r + wu_top cube direction i h.moments_r
      let half_g := bottom_g + wu_top cube direction i h.moments_g
      let half_b := bottom_b + wu_top cube direction i h.moments_b
      let half_w := bottom_w + wu_top cube direction i h.weights
      if half_w = 0 then acc
      else
        let temp := (half_r * half_r + half_g * half_g + half_b * half_b) / half_w
        let half_r2 := whole_r - half_r
        let half_g2 := whole_g - half_g
        let half_b2 := whole_b - half_b
        let half_w2 := whole_w - half_w
        if half_w2 = 0 then acc
        else
          let temp2 := temp
            + (half_r2 * half_r2 + half_g2 * half_g2 + half_b2 * half_b2) / half_w2
          if (temp2 : ℚ) > acc.1 then ((temp2 : ℚ), (i : ℤ)) else acc)
    (0, -1)

/-- Rust `QuantizerWu::variance(cube)` (src/quantize/wu.rs lines 414–430). -/
def wu_variance (h : Histogram) (cube : Cube) : ℚ :=
  let dr := wu_volume cube h.moments_r
  let dg := wu_volume cube h.moments_g
  let db := wu_volume cube h.moments_b
  let xx := h.moments (get_index cube.r1 cube.g1 cube.b1)
    - h.moments (get_index cube.r1 cube.g1 cube.b0)
    - h.moments (get_index cube.r1 cube.g0 cube.b1)
    + h.moments (get_index cube.r1 cube.g0 cube.b0)
    - h.moments (get_index cube.r0 cube.g1 cube.b1)
    + h.moments (get_index cube.r0 cube.g1 cube.b0)
    + h.moments (get_index cube.r0 cube.g0 cube.b1)
    - h.moments (get_index cube.r0 cube.g0 cube.b0)
  let hypotenuse := ((dr * dr + dg * dg + db * db : ℤ) : ℚ)
  let volume_ := ((wu_volume cube h.weights : ℤ) : ℚ)
  xx - hypotenuse / volume_

/-- Rust `QuantizerWu::cut(one, two)` (src/quantize/wu.rs lines 196–275):
`none` models the `false` return, `some (one', two')` the mutated cubes. -/
def wu_cut (h : Histogram) (one two : Cube) : Option (Cube × Cube) :=
  let whole_r := wu_volume one h.moments_r
  let whole_g := wu_volume one h.moments_g
  let whole_b := wu_volume one h.moments_b
  let whole_w := wu_volume one h.weights
  let max_r_result := wu_maximize h one .red (one.r0 + 1) one.r1
    whole_r whole_g whole_b whole_w
  let max_g_result := wu_maximize h one .green (one.g0 + 1) one.g1
    whole_r whole_g whole_b whole_w
  let max_b_result := wu_maximize h one .blue (one.b0 + 1) one.b1
    whole_r whole_g whole_b whole_w
  let max_r := max_r_result.1
  let max_g := max_g_result.1
  let max_b := max_b_result.1
  let build := fun (direction : Direction) =>
    let two0 := { two with r1 := one.r1, g1 := one.g1, b1 := one.b1 }
    match direction with
    | .red =>
      let one' := { one with r1 := max_r_result.2.toNat }
      let two' := { two0 with r0 := one'.r1, g0 := one.g0, b0 := one.b0 }
      let one'' := { one' with
        vol := (one'.r1 - one'.r0) * (one'.g1 - one'.g0) * (one'.b1 - one'.b0) }
      let two'' := { two' with
        vol := (two'.r1 - two'.r0) * (two'.g1 - two'.g0) * (two'.b1 - two'.b0) }
      some (one'', two'')
    | .green =>
      let one' := { one with g1 := max_g_result.2.toNat }
      let two' := { two0 with r0 := one.r0, g0 := one'.g1, b0 := one.b0 }
      let one'' := { one' with
        vol := (one'.r1 - one'.r0) * (one'.g1 - one'.g0) * (one'.b1 - one'.b0) }
      let two'' := { two' with
        vol := (two'.r1 - two'.r0) * (two'.g1 - two'.g0) * (two'.b1 - two'.b0) }
      some (one'', two'')
    | .blue =>
      let one' := { one with b1 := max_b_result.2.toNat }
      let two' := { two0 with r0 := one.r0, g0 := one.g0, b0 := one'.b1 }
      let one'' := { one' with
        vol := (one'.r1 - one'.r0) * (one'.g1 - one'.g0) * (one'.b1 - one'.b0) }
      let two'' := { two' with
        vol := (two'.r1 - two'.r0) * (two'.g1 - two'.g0) * (two'.b1 - two'.b0) }
      some (one'', two'')
  if max_r ≥ max_g ∧ max_r ≥ max_b then
    if max_r_result.2 < 0 then none else build .red
  else if max_g ≥ max_r ∧ max_g ≥ max_b then build .green
  else build .blue

/-- Scan for the next cube to split (src/quantize/wu.rs lines 162–169):
`next = argmax of volume_variance[0..=i]` with strict improvement. Returns
`(temp, next)`. -/
def next_cube_scan (vv : List ℚ) (i : ℕ) : ℚ × ℕ :=
  (List.range' 1 i).foldl
    (fun acc j => if vv.getD j 0 > acc.1 then (vv.getD j 0, j) else acc)
    (vv.getD 0 0, 0)

/-- Rust `QuantizerWu::create_cubes` main loop (src/quantize/wu.rs lines
137–174), as recursion over the remaining loop indices. The Rust `i -= 1` in
the failed-cut branch only affects the scan bound and the generated count of
that iteration (the `for` iterator is unaffected). Returns the cube array and
the generated color count. -/
def create_cubes_loop (h : Histogram) :
    List ℕ → List Cube → List ℚ → ℕ → ℕ → List Cube × ℕ
  | [], cubes, _, _, generated => (cubes, generated)
  | i :: rest, cubes, vv, next, generated =>
    let cube_next := cubes.getD next default
    let cube_i := cubes.getD i default
    match wu_cut h cube_next cube_i with
    | some (c1, c2) =>
      let cubes' := (cubes.set next c1).set i c2
      let vv' := (vv.set next (if c1.vol > 1 then wu_variance h c1 else 0)).set i
        (if c2.vol > 1 then wu_variance h c2 else 0)
      let scan := next_cube_scan vv' i
      if scan.1 ≤ 0 then (cubes', i + 1)
      else create_cubes_loop h rest cubes' vv' scan.2 generated
    | none =>
      let vv' := vv.set next 0
      let i' := i - 1
      let scan := next_cube_scan vv' i'
      if scan.1 ≤ 0 then (cubes, i' + 1)
      else create_cubes_loop h rest cubes vv' scan.2 generated

/-- Rust `QuantizerWu::create_cubes` (src/quantize/wu.rs lines 125–180):
allocate `max_color_count` default cubes, widen cube 0 to the full range, run
the cutting loop. Requires `max_color_count ≥ 1` for faithfulness (the source
indexes `cubes[0]` unconditionally and would panic on 0). -/
def wu_create_cubes (h : Histogram) (max_color_count : ℕ) : List Cube × ℕ :=
  let full : Cube := ⟨0, 32, 0, 32, 0, 32, 0⟩
  let cubes := (List.replicate max_color_count default).set 0 full
  create_cubes_loop h (List.range' 1 (max_color_count - 1)) cubes
    (List.replicate max_color_count 0) 0 max_color_count

/-- Rust `QuantizerWu::create_result(color_count)` (src/quantize/wu.rs lines
181–195). -/
def wu_create_result (h : Histogram) (cubes : List Cube) (color_count : ℕ) :
    List ℕ :=
  (List.range color_count).foldl
    (fun colors i =>
      let cube := cubes.getD i default
      let weight := wu_volume cube h.weights
      if weight > 0 then
        let r := wu_volume cube h.moments_r / weight
        let g := wu_volume cube h.moments_g / weight
        let b := wu_volume cube h.moments_b / weight
        colors ++ [argb_from_rgb r.toNat g.toNat b.toNat]
      else colors)
    []

/-- Rust `QuantizerWu::quantize` (src/quantize/wu.rs lines 23–35): map
quantizer, histogram, moments, cutting, result extraction; each result color
is paired with count 0 as in the source. -/
def wu_quantize (pixels : List ℕ) (max_colors : ℕ) : List (ℕ × ℕ) :=
  let map_result := quantizer_map_quantize pixels
  let h := compute_moments (construct_histogram map_result)
  let cc := wu_create_cubes h max_colors
  let results := wu_create_result h cc.1 cc.2
  results.map (fun e => (e, 0))

/-- Rust `QuantizerCelebi::quantize` (src/quantize/celebi.rs): Wu seeds a
WSMeans refinement run with `debug: true` and `max_iterations: 5`. -/
def celebi_quantize (from_int : ℕ → LabPoint) (to_int : LabPoint → ℕ)
    (rng : ℕ → ℕ) (pixels : List ℕ) (max_colors : ℕ) : List (ℕ × ℕ) :=
  let wu_result := wu_quantize pixels max_colors
  ws_quantize from_int to_int rng true (wu_result.map Prod.fst) 5 pixels max_colors

/-! ### Behavior of the Wu quantizer on the empty histogram -/

/-- All five moment arrays are pointwise zero. -/
def hist_zero (h : Histogram) : Prop :=
  (∀ i, h.weights i = 0) ∧ (∀ i, h.moments_r i = 0) ∧ (∀ i, h.moments_g i = 0) ∧
    (∀ i, h.moments_b i = 0) ∧ (∀ i, h.moments i = 0)

def areas_zero (a : MomentAreas) : Prop :=
  (∀ i, a.area i = 0) ∧ (∀ i, a.area_r i = 0) ∧ (∀ i, a.area_g i = 0) ∧
    (∀ i, a.area_b i = 0) ∧ (∀ i, a.area2 i = 0)

def lines_zero (l : MomentLines) : Prop :=
  l.line = 0 ∧ l.line_r = 0 ∧ l.line_g = 0 ∧ l.line_b = 0 ∧ l.line2 = 0

theorem foldl_inv {α β : Type*} (P : α → Prop) (f : α → β → α)
    (hstep : ∀ a b, P a → P (f a b)) :
    ∀ (l : List β) (a : α), P a → P (l.foldl f a) := by
  intro l
  induction l with
  | nil => intro a ha; exact ha
  | cons b rest ih => intro a ha; exact ih (f a b) (hstep a b ha)

theorem hist_zero_init : hist_zero init_histogram :=
  ⟨fun _ => rfl, fun _ => rfl, fun _ => rfl, fun _ => rfl, fun _ => rfl⟩

theorem compute_moments_b_step_zero (r g b : ℕ)
    (st : Histogram × MomentAreas × MomentLines)
    (hst : hist_zero st.1 ∧ areas_zero st.2.1 ∧ lines_zero st.2.2) :
    hist_zero (compute_moments_b_step r g st b).1 ∧
      areas_zero (compute_moments_b_step r g st b).2.1 ∧
      lines_zero (compute_moments_b_step r g st b).2.2 := by
  obtain ⟨⟨hw, hr, hg, hb, hm⟩, ⟨aw, ar, ag, ab, am⟩, ⟨lw, lr, lg, lb, lm⟩⟩ := hst
  unfold compute_moments_b_step
  refine ⟨⟨?_, ?_, ?_, ?_, ?_⟩, ⟨?_, ?_, ?_, ?_, ?_⟩, ?_, ?_, ?_, ?_, ?_⟩ <;>
    simp_all

theorem compute_moments_zero (h : Histogram) (hz : hist_zero h) :
    hist_zero (compute_moments h) := by
  unfold compute_moments
  apply foldl_inv (P := hist_zero)
  · intro hcur r hcur_zero
    dsimp only
    have hg := foldl_inv
      (P := fun sg : Histogram × MomentAreas => hist_zero sg.1 ∧ areas_zero sg.2)
      (f := fun sg g =>
        let inner := side_range.foldl (compute_moments_b_step r g)
          (sg.1, sg.2, ⟨0, 0, 0, 0, 0⟩)
        (inner.1, inner.2.1))
      ?_ side_range (hcur, ⟨fun _ => 0, fun _ => 0, fun _ => 0, fun _ => 0, fun _ => 0⟩)
      ⟨hcur_zero, fun _ => rfl, fun _ => rfl, fun _ => rfl, fun _ => rfl, fun _ => rfl⟩
    · exact hg.1
    · intro sg g hsg
      dsimp only
      have hb := foldl_inv
        (P := fun st : Histogram × MomentAreas × MomentLines =>
          hist_zero st.1 ∧ areas_zero st.2.1 ∧ lines_zero st.2.2)
        (f := compute_moments_b_step r g)
        (fun st b hst => compute_moments_b_step_zero r g b st hst)
        side_range (sg.1, sg.2, ⟨0, 0, 0, 0, 0⟩)
        ⟨hsg.1, hsg.2, rfl, rfl, rfl, rfl, rfl⟩
      exact ⟨hb.1, hb.2.1⟩
  · exact hz

theorem wu_volume_zero (cube : Cube) (m : ℕ → ℕ) (hm : ∀ i, m i = 0) :
    wu_volume cube m = 0 := by
  simp [wu_volume, hm]

theorem wu_bottom_zero (cube : Cube) (d : Direction) (m : ℕ → ℕ)
    (hm : ∀ i, m i = 0) : wu_bottom cube d m = 0 := by
  cases d <;> simp [wu_bottom, hm]

theorem wu_top_zero (cube : Cube) (d : Direction) (p : ℕ) (m : ℕ → ℕ)
    (hm : ∀ i, m i = 0) : wu_top cube d p m = 0 := by
  cases d <;> simp [wu_top, hm]

theorem wu_maximize_zero (h : Histogram) (hz : hist_zero h) (cube : Cube)
    (d : Direction) (first last : ℕ) (wr wg wb ww : ℤ) :
    wu_maximize h cube d first last wr wg wb ww = (0, -1) := by
  unfold wu_maximize
  apply foldl_inv (P := fun acc : ℚ × ℤ => acc = (0, -1))
  · intro acc i hacc
    dsimp only
    rw [wu_bottom_zero cube d h.weights hz.1, wu_top_zero cube d i h.weights hz.1]
    simp [hacc]
  · rfl

theorem wu_cut_zero (h : Histogram) (hz : hist_zero h) (one two : Cube) :
    wu_cut h one two = none := by
  unfold wu_cut
  simp only [wu_maximize_zero h hz]
  norm_num

theorem getD_set_zero {α : Type*} [Inhabited α] (z : α) (l : List α) (n : ℕ)
    (hl : ∀ j, l.getD j z = z) : ∀ j, (l.set n z).getD j z = z := by
  intro j
  rcases eq_or_ne n j with rfl | hnj
  · rcases lt_or_ge n l.length with hlen | hlen
    · simp [List.getD_eq_getElem?_getD, List.getElem?_set, hlen]
    · rw [List.set_eq_of_length_le hlen]
      exact hl n
  · rw [List.getD_eq_getElem?_getD, List.getElem?_set_ne hnj,
      ← List.getD_eq_getElem?_getD]
    exact hl j

theorem next_cube_scan_zero (vv : List ℚ) (hvv : ∀ j, vv.getD j 0 = 0) (i : ℕ) :
    next_cube_scan vv i = (0, 0) := by
  have hvv2 : ∀ j : ℕ, vv[j]?.getD 0 = 0 := fun j => by
    rw [← List.getD_eq_getElem?_getD]
    exact hvv j
  unfold next_cube_scan
  apply foldl_inv (P := fun acc : ℚ × ℕ => acc = (0, 0))
  · intro acc j hacc
    simp [List.getD_eq_getElem?_getD, hvv2, hacc]
  · simp [List.getD_eq_getElem?_getD, hvv2]

theorem create_cubes_loop_zero (h : Histogram) (hz : hist_zero h)
    (cubes : List Cube) (vv : List ℚ) (hvv : ∀ j, vv.getD j 0 = 0)
    (next generated : ℕ) (i : ℕ) (rest : List ℕ) (hi : 1 ≤ i) :
    create_cubes_loop h (i :: rest) cubes vv next generated = (cubes, i) := by
  rw [create_cubes_loop]
  rw [wu_cut_zero h hz]
  have hvv' := getD_set_zero (0 : ℚ) vv next hvv
  dsimp only
  rw [next_cube_scan_zero _ hvv']
  norm_num
  omega

theorem wu_create_cubes_zero (h : Histogram) (hz : hist_zero h)
    (max_color_count : ℕ) (hm : 1 ≤ max_color_count) :
    wu_create_cubes h max_color_count
      = ((List.replicate max_color_count default).set 0 ⟨0, 32, 0, 32, 0, 32, 0⟩, 1) := by
  unfold wu_create_cubes
  rcases Nat.exists_eq_add_of_le hm with ⟨k, hk⟩
  rcases k with _ | k
  · subst hk
    rfl
  · subst hk
    have hlen : 1 + (k + 1) - 1 = k + 1 := by omega
    rw [hlen]
    have hrange : List.range' 1 (k + 1) = 1 :: List.range' 2 k := rfl
    rw [hrange, create_cubes_loop_zero h hz _ _ ?_ _ _ _ _ le_rfl]
    intro j
    induction (1 + (k + 1)) with
    | zero => rfl
    | succ n ihn =>
      rw [List.replicate_succ]
      cases j <;> simp [List.getD]

theorem wu_create_result_zero (h : Histogram) (hz : hist_zero h)
    (cubes : List Cube) (n : ℕ) : wu_create_result h cubes n = [] := by
  unfold wu_create_result
  apply foldl_inv (P := fun colors : List ℕ => colors = [])
  · intro colors i hcolors
    dsimp only
    rw [wu_volume_zero _ h.weights hz.1]
    simp [hcolors]
  · rfl

/-- Wu on an empty pixel slice returns the empty map, for every
`max_colors ≥ 1` (at 0 the source panics indexing `cubes[0]`). -/
theorem wu_quantize_nil (max_colors : ℕ) (hm : 1 ≤ max_colors) :
    wu_quantize [] max_colors = [] := by
  unfold wu_quantize
  have hz : hist_zero (compute_moments (construct_histogram (quantizer_map_quantize []))) := by
    have h0 : construct_histogram (quantizer_map_quantize []) = init_histogram := rfl
    rw [h0]
    exact compute_moments_zero _ hist_zero_init
  dsimp only
  rw [wu_create_result_zero _ hz]
  rfl

/-- Celebi on an empty pixel slice returns the empty map for every
`max_colors ≥ 1`. -/
theorem celebi_quantize_nil (from_int : ℕ → LabPoint) (to_int : LabPoint → ℕ)
    (rng : ℕ → ℕ) (max_colors : ℕ) (hm : 1 ≤ max_colors) :
    celebi_quantize from_int to_int rng [] max_colors = [] := by
  unfold celebi_quantize
  rw [wu_quantize_nil max_colors hm]
  exact ws_quantize_nil from_int to_int rng true 5 max_colors

/-- C7 counterexample: with an empty pixel slice and `max_colors = 256`,
WSMeans, Wu and the Celebi composite all return normally with an empty
color-to-count map — exactly the "silently returning an empty map" the claim
says cannot happen; none of the three has an error result (their return type
carries no error channel). -/
theorem C7_counterexample :
    ws_quantize (fun _ => ((0 : ℚ), (0 : ℚ), (0 : ℚ))) (fun _ => 0) (fun _ => 0)
        true [] 5 [] 256 = [] ∧
    wu_quantize [] 256 = [] ∧
    celebi_quantize (fun _ => ((0 : ℚ), (0 : ℚ), (0 : ℚ))) (fun _ => 0) (fun _ => 0)
        [] 256 = [] :=
  ⟨ws_quantize_nil _ _ _ true 5 256,
   wu_quantize_nil 256 (by norm_num),
   celebi_quantize_nil _ _ _ 256 (by norm_num)⟩

/-- C7 amended: calling quantize with an empty pixel slice does not fail —
there is no error channel — and silently returns an empty color-to-count map:
WSMeans for every `max_colors`, Wu and Celebi for every `max_colors ≥ 1` (at
`max_colors = 0` Wu's unconditional `cubes[0]` indexing panics). -/
theorem C7_empty_input_empty_map (from_int : ℕ → LabPoint) (to_int : LabPoint → ℕ)
    (rng : ℕ → ℕ) (debug : Bool) (max_iterations max_colors : ℕ)
    (hm : 1 ≤ max_colors) :
    ws_quantize from_int to_int rng debug [] max_iterations [] max_colors = [] ∧
    wu_quantize [] max_colors = [] ∧
    celebi_quantize from_int to_int rng [] max_colors = [] :=
  ⟨ws_quantize_nil from_int to_int rng debug max_iterations max_colors,
   wu_quantize_nil max_colors hm,
   celebi_quantize_nil from_int to_int rng max_colors hm⟩

theorem C7_empty_input_empty_map_witness :
    ws_quantize (fun _ => ((0 : ℚ), (0 : ℚ), (0 : ℚ))) (fun _ => 0) (fun _ => 0)
        false [] 5 [] 256 = [] ∧
    wu_quantize [] 256 = [] ∧
    celebi_quantize (fun _ => ((0 : ℚ), (0 : ℚ), (0 : ℚ))) (fun _ => 0) (fun _ => 0)
        [] 256 = [] :=
  C7_empty_input_empty_map (fun _ => ((0 : ℚ), (0 : ℚ), (0 : ℚ))) (fun _ => 0)
    (fun _ => 0) false 5 256 (by norm_num)

/-- C8: `QuantizerWsmeans::quantize` is deterministic — it is a pure function
of the pixel slice, the max-color count, the point-provider conversions, the
struct configuration and the pseudo-random stream, and the stream is fixed by
the built-in constant seed 0x42688: two runs whose inputs and stream coincide
produce identical color-to-count results. -/
theorem C8_ws_quantize_deterministic
    (fi1 fi2 : ℕ → LabPoint) (ti1 ti2 : LabPoint → ℕ) (r1 r2 : ℕ → ℕ)
    (d1 d2 : Bool) (sc1 sc2 : List ℕ) (mi1 mi2 : ℕ)
    (p1 p2 : List ℕ) (m1 m2 : ℕ)
    (hfi : fi1 = fi2) (hti : ti1 = ti2) (hr : r1 = r2) (hd : d1 = d2)
    (hsc : sc1 = sc2) (hmi : mi1 = mi2) (hp : p1 = p2) (hm : m1 = m2) :
    ws_quantize fi1 ti1 r1 d1 sc1 mi1 p1 m1
      = ws_quantize fi2 ti2 r2 d2 sc2 mi2 p2 m2 := by
  rw [hfi, hti, hr, hd, hsc, hmi, hp, hm]

theorem C8_ws_quantize_deterministic_witness :
    ws_quantize (fun _ => ((0 : ℚ), (0 : ℚ), (0 : ℚ))) (fun _ => 0) (fun _ => 0)
        true [] 5 [4278190335] 256
      = ws_quantize (fun _ => ((0 : ℚ), (0 : ℚ), (0 : ℚ))) (fun _ => 0) (fun _ => 0)
        true [] 5 [4278190335] 256 :=
  C8_ws_quantize_deterministic _ _ _ _ _ _ _ _ _ _ _ _ _ _ _ _
    rfl rfl rfl rfl rfl rfl rfl rfl

/-! ## hct/mod.rs — the HCT inverter (dual binary search)

The CAM16 numeric kernels entering the search are transcendental `f64`
computations; they are abstracted as the fields of `Cam16Oracle`, while the
binary-search control flow, the interval arithmetic, every tolerance constant
and the gray fallback are translated exactly. The loops are written with an
explicit fuel argument (`none` = fuel exhausted); the termination theorem
shows the fuel computed from the interval widths always suffices. -/

/-- Rust constant `CHROMA_SEARCH_ENDPOINT` (src/hct/mod.rs). -/
def chroma_search_endpoint : ℚ := 0.4

/-- Rust constant `DE_MAX` (src/hct/mod.rs). -/
def de_max : ℚ := 1.0

/-- Rust constant `DL_MAX` (src/hct/mod.rs). -/
def dl_max : ℚ := 0.2

/-- Rust constant `DE_MAX_ERROR` (src/hct/mod.rs). -/
def de_max_error : ℚ := 0.000000001

/-- Rust constant `LIGHTNESS_SEARCH_ENDPOINT` (src/hct/mod.rs). -/
def lightness_search_endpoint : ℚ := 0.01

/-- Exact value of Rust `std::f64::MAX`. -/
def f64_max : ℚ := (2 ^ 53 - 1) * 2 ^ 971

/-- Abstraction of the CAM16 numeric kernels used by the HCT inverter:
`viewed_jch j c h` is `Cam16::from_jch_in_viewing_conditions(j, c, h).viewed`,
`lstar_from_argb` the L* of an ARGB value, `de_dist clipped h` the CAM16-UCS
distance computed at src/hct/mod.rs lines 254–261, `round_trip argb` is
`Cam16::from_int(argb).viewed`, `cam_hue`/`cam_chroma` the CAM16 hue and
chroma of an ARGB value, and `tf` the `powf(1/2.4)` branch of
`delinearized`. -/
structure Cam16Oracle where
  viewed_jch : ℚ → ℚ → ℚ → ℕ
  lstar_from_argb : ℕ → ℚ
  de_dist : ℕ → ℚ → ℚ
  round_trip : ℕ → ℕ
  cam_hue : ℕ → ℚ
  cam_chroma : ℕ → ℚ
  tf : ℚ → ℚ

/-- Best-candidate tracker update of one `find_cam_by_j` iteration
(src/hct/mod.rs lines 249–268): when the tone tolerance `d_l < DL_MAX` holds
and the CAM16-UCS error improves within `DE_MAX`, record
`(d_l, d_e, clipped)`; otherwise keep the previous trackers. -/
def jsearch_update (o : Cam16Oracle) (hue lstar best_d_l best_d_e : ℚ)
    (best_cam : Option ℕ) (clipped : ℕ) : ℚ × ℚ × Option ℕ :=
  let clipped_lstar := o.lstar_from_argb clipped
  let d_l := |lstar - clipped_lstar|
  if d_l < dl_max then
    let d_e := o.de_dist clipped hue
    if (d_e ≤ de_max ∧ d_e < best_d_e) ∧ d_l < dl_max then (d_l, d_e, some clipped)
    else (best_d_l, best_d_e, best_cam)
  else (best_d_l, best_d_e, best_cam)

/-- Inner binary search over J, Rust `Hct::find_cam_by_j` (src/hct/mod.rs
lines 231–282). Returns `some best_cam` on loop exit (`best_cam = none` when
no candidate met the tone tolerance, carrying the clipped ARGB otherwise) and
`none` only on fuel exhaustion. -/
def find_cam_by_j_loop (o : Cam16Oracle) (hue chroma lstar : ℚ) :
    ℕ → ℚ → ℚ → ℚ → ℚ → Option ℕ → Option (Option ℕ)
  | 0, _, _, _, _, _ => none
  | fuel + 1, low, high, best_d_l, best_d_e, best_cam =>
    if |low - high| > lightness_search_endpoint then
      let mid := low + (high - low) / 2
      let clipped := o.viewed_jch mid chroma hue
      let clipped_lstar := o.lstar_from_argb clipped
      let st := jsearch_update o hue lstar best_d_l best_d_e best_cam clipped
      if st.1 = 0 ∧ st.2.1 < de_max_error then some st.2.2
      else if clipped_lstar < lstar then
        find_cam_by_j_loop o hue chroma lstar fuel mid high st.1 st.2.1 st.2.2
      else
        find_cam_by_j_loop o hue chroma lstar fuel low mid st.1 st.2.1 st.2.2
    else some best_cam

/-- Rust `Hct::find_cam_by_j`: the J interval starts at [0, 100] and the best
trackers at `f64::MAX`; 10001 units of fuel cover the ⌊100/0.01⌋ possible
halvings. -/
def find_cam_by_j (o : Cam16Oracle) (hue chroma lstar : ℚ) : Option (Option ℕ) :=
  find_cam_by_j_loop o hue chroma lstar 10001 0 100 f64_max f64_max none

/-- One iteration of the chroma binary search of
`Hct::get_int_in_viewing_conditions` (src/hct/mod.rs lines 115–145), with the
recursive continuation abstracted as `recF` (applied to the updated interval,
midpoint, first-loop flag and running answer). On loop exit (interval
narrower than `CHROMA_SEARCH_ENDPOINT`) the running answer is viewed, or the
neutral gray `argb_from_lstar` is returned (lines 150–154). `none` from
`find_cam_by_j` (inner fuel exhaustion) is propagated. -/
def get_int_step (o : Cam16Oracle) (hue lstar low high mid : ℚ)
    (is_first_loop : Bool) (answer : Option ℕ)
    (recF : ℚ → ℚ → ℚ → Bool → Option ℕ → Option ℕ) : Option ℕ :=
  if |low - high| ≥ chroma_search_endpoint then
    match find_cam_by_j o hue mid lstar with
    | none => none
    | some possible_answer =>
      if is_first_loop then
        match possible_answer with
        | some cam => some (o.round_trip cam)
        | none => recF low high (low + (high - low) / 2) false answer
      else
        match possible_answer with
        | none => recF low mid (low + (mid - low) / 2) false answer
        | some cam => recF mid high (mid + (high - mid) / 2) false (some cam)
  else
    match answer with
    | some cam => some (o.round_trip cam)
    | none => some (argb_from_lstar o.tf lstar)

/-- Outer binary search over chroma, Rust `Hct::get_int_in_viewing_conditions`
(src/hct/mod.rs lines 101–155). -/
def get_int_loop (o : Cam16Oracle) (hue lstar : ℚ) :
    ℕ → ℚ → ℚ → ℚ → Bool → Option ℕ → Option ℕ
  | 0, _, _, _, _, _ => none
  | fuel + 1, low, high, mid, is_first_loop, answer =>
    get_int_step o hue lstar low high mid is_first_loop answer
      (get_int_loop o hue lstar fuel)

/-- Rust `Hct::get_int_in_viewing_conditions` (src/hct/mod.rs lines 82–155):
degenerate inputs short-circuit to the neutral gray, the hue is clamped to
[0, 360], and the chroma search starts at `low = 0`, `high = mid = chroma`
with ⌊|chroma|/0.4⌋ + 2 units of fuel (one extra for the first-loop iteration
that does not shrink the interval). -/
def get_int_in_viewing_conditions (o : Cam16Oracle) (hue chroma lstar : ℚ) :
    Option ℕ :=
  if chroma < 1 ∨ rust_round lstar ≤ 0 ∨ rust_round lstar ≥ 100 then
    some (argb_from_lstar o.tf lstar)
  else
    let hue' := if hue < 0 then 0 else if hue > 360 then 360 else hue
    get_int_loop o hue' lstar
      ((Int.floor (|(0 : ℚ) - chroma| / chroma_search_endpoint)).toNat + 2)
      0 chroma chroma true none

/-- Rust `Hct::new` (src/hct/mod.rs lines 45–66): sanitize the hue, clamp the
tone, realize the color through the inverter, then overwrite all three fields
from the realized ARGB via `set_internal_state`. -/
def hct_new (o : Cam16Oracle) (hue chroma tone : ℚ) : Option Hct :=
  match get_int_in_viewing_conditions o (sanitize_degrees_double hue) chroma
      (clamp_double 0 100 tone) with
  | none => none
  | some argb => some ⟨o.cam_hue argb, o.cam_chroma argb, o.lstar_from_argb argb⟩

/-- Halving a super-threshold interval strictly shrinks the fuel measure. -/
theorem floor_half_lt (w t : ℚ) (ht : 0 < t) (hw : t ≤ w) :
    (Int.floor ((w / 2) / t)).toNat < (Int.floor (w / t)).toNat := by
  have hx1 : (1 : ℚ) ≤ w / t := by
    rw [le_div_iff ht]
    linarith
  have hn1 : 1 ≤ Int.floor (w / t) := Int.le_floor.2 (by exact_mod_cast hx1)
  have hub : w / t < (Int.floor (w / t) : ℚ) + 1 := Int.lt_floor_add_one _
  have hcast : (1 : ℚ) ≤ (Int.floor (w / t) : ℚ) := by exact_mod_cast hn1
  have hlt : Int.floor ((w / 2) / t) < Int.floor (w / t) := by
    rw [Int.floor_lt]
    have heq : (w / 2) / t = (w / t) / 2 := by ring
    rw [heq]
    linarith
  omega

theorem abs_mid_high (low high : ℚ) :
    |low + (high - low) / 2 - high| = |low - high| / 2 := by
  rw [show low + (high - low) / 2 - high = (low - high) / 2 by ring,
    abs_div]
  norm_num

theorem abs_low_mid (low high : ℚ) :
    |low - (low + (high - low) / 2)| = |low - high| / 2 := by
  rw [show low - (low + (high - low) / 2) = (low - high) / 2 by ring,
    abs_div]
  norm_num

/-- The inner J search always exits within its fuel. -/
theorem find_cam_by_j_loop_some (o : Cam16Oracle) (hue chroma lstar : ℚ) :
    ∀ (fuel : ℕ) (low high best_d_l best_d_e : ℚ) (best_cam : Option ℕ),
      (Int.floor (|low - high| / lightness_search_endpoint)).toNat < fuel →
      ∃ r, find_cam_by_j_loop o hue chroma lstar fuel low high best_d_l best_d_e
        best_cam = some r := by
  intro fuel
  induction fuel with
  | zero => intro low high _ _ _ hfuel; omega
  | succ fuel ih =>
    intro low high best_d_l best_d_e best_cam hfuel
    rw [find_cam_by_j_loop]
    by_cases hguard : |low - high| > lightness_search_endpoint
    · rw [if_pos hguard]
      have hlt : 0 < lightness_search_endpoint := by norm_num [lightness_search_endpoint]
      have hhalf := floor_half_lt |low - high| lightness_search_endpoint hlt
        (le_of_lt hguard)
      dsimp only
      split
      · exact ⟨_, rfl⟩
      · split
        · apply ih
          rw [abs_mid_high]
          omega
        · apply ih
          rw [abs_low_mid]
          omega
    · rw [if_neg hguard]
      exact ⟨_, rfl⟩

/-- When every J trial misses the tone tolerance, the inner search reports no
candidate. -/
theorem find_cam_by_j_loop_none (o : Cam16Oracle) (hue chroma lstar : ℚ)
    (hyp : ∀ j, |lstar - o.lstar_from_argb (o.viewed_jch j chroma hue)| ≥ dl_max) :
    ∀ (fuel : ℕ) (low high : ℚ),
      find_cam_by_j_loop o hue chroma lstar fuel low high f64_max f64_max none = none ∨
      find_cam_by_j_loop o hue chroma lstar fuel low high f64_max f64_max none
        = some none := by
  intro fuel
  induction fuel with
  | zero => intro low high; exact Or.inl rfl
  | succ fuel ih =>
    intro low high
    rw [find_cam_by_j_loop]
    by_cases hguard : |low - high| > lightness_search_endpoint
    · rw [if_pos hguard]
      have hdl := hyp (low + (high - low) / 2)
      have hnot : ¬ (|lstar - o.lstar_from_argb
          (o.viewed_jch (low + (high - low) / 2) chroma hue)| < dl_max) :=
        not_lt.2 hdl
      have hupd : jsearch_update o hue lstar f64_max f64_max none
          (o.viewed_jch (low + (high - low) / 2) chroma hue)
          = (f64_max, f64_max, none) := by
        unfold jsearch_update
        rw [if_neg hnot]
      dsimp only
      rw [hupd]
      have hfz : ¬ ((f64_max, f64_max, (none : Option ℕ)).1 = 0 ∧
          (f64_max, f64_max, (none : Option ℕ)).2.1 < de_max_error) := by
        intro hcon
        have : f64_max = 0 := hcon.1
        norm_num [f64_max] at this
      rw [if_neg hfz]
      split
      · exact ih _ _
      · exact ih _ _
    · rw [if_neg hguard]
      exact Or.inr rfl

/-- The chroma search always exits within its fuel; the invariant records
that after the first iteration `mid` is the midpoint of the interval. -/
theorem get_int_loop_some (o : Cam16Oracle) (hue lstar : ℚ) :
    ∀ (fuel : ℕ) (low high mid : ℚ) (is_first_loop : Bool) (answer : Option ℕ),
      (is_first_loop = false → mid = low + (high - low) / 2) →
      (Int.floor (|low - high| / chroma_search_endpoint)).toNat
          + (if is_first_loop then 1 else 0) < fuel →
      ∃ r, get_int_loop o hue lstar fuel low high mid is_first_loop answer
        = some r := by
  intro fuel
  induction fuel with
  | zero => intro low high mid f a _ hfuel; omega
  | succ fuel ih =>
    intro low high mid is_first_loop answer hmid hfuel
    rw [get_int_loop]
    unfold get_int_step
    by_cases hguard : |low - high| ≥ chroma_search_endpoint
    · rw [if_pos hguard]
      obtain ⟨p, hp⟩ := find_cam_by_j_loop_some o hue mid lstar 10001 0 100
        f64_max f64_max none (by norm_num [lightness_search_endpoint])
      rw [show find_cam_by_j o hue mid lstar = some p from hp]
      have hcse : 0 < chroma_search_endpoint := by norm_num [chroma_search_endpoint]
      cases is_first_loop with
      | true =>
        dsimp only
        cases p with
        | some cam => exact ⟨_, rfl⟩
        | none =>
          apply ih low high _ false answer (fun _ => rfl)
          simp only [if_true, if_false, Bool.false_eq_true] at hfuel ⊢
          omega
      | false =>
        dsimp only
        have hmid' := hmid rfl
        have hhalf := floor_half_lt |low - high| chroma_search_endpoint hcse hguard
        cases p with
        | none =>
          apply ih low mid _ false answer (fun _ => rfl)
          rw [hmid', abs_low_mid]
          simp only [Bool.false_eq_true, if_false] at hfuel ⊢
          omega
        | some cam =>
          apply ih mid high _ false (some cam) (fun _ => rfl)
          rw [hmid', show |low + (high - low) / 2 - high| = |low - high| / 2 from
            abs_mid_high low high]
          simp only [Bool.false_eq_true, if_false] at hfuel ⊢
          omega
    · rw [if_neg hguard]
      cases answer with
      | some cam => exact ⟨_, rfl⟩
      | none => exact ⟨_, rfl⟩

/-- With no tone-tolerant candidate anywhere, the chroma search (with no
answer yet) can only fall back to the gray. -/
theorem get_int_loop_no_tol (o : Cam16Oracle) (hue lstar : ℚ)
    (hyp : ∀ j c, |lstar - o.lstar_from_argb (o.viewed_jch j c hue)| ≥ dl_max) :
    ∀ (fuel : ℕ) (low high mid : ℚ) (is_first_loop : Bool),
      get_int_loop o hue lstar fuel low high mid is_first_loop none = none ∨
      get_int_loop o hue lstar fuel low high mid is_first_loop none
        = some (argb_from_lstar o.tf lstar) := by
  intro fuel
  induction fuel with
  | zero => intro low high mid f; exact Or.inl rfl
  | succ fuel ih =>
    intro low high mid is_first_loop
    rw [get_int_loop]
    unfold get_int_step
    by_cases hguard : |low - high| ≥ chroma_search_endpoint
    · rw [if_pos hguard]
      obtain ⟨p, hp⟩ := find_cam_by_j_loop_some o hue mid lstar 10001 0 100
        f64_max f64_max none (by norm_num [lightness_search_endpoint])
      have hnone : p = none := by
        rcases find_cam_by_j_loop_none o hue mid lstar (fun j => hyp j mid)
            10001 0 100 with hn | hn
        · rw [hp] at hn
          exact Option.noConfusion hn
        · rw [hp] at hn
          exact Option.some.inj hn
      rw [show find_cam_by_j o hue mid lstar = some p from hp, hnone]
      cases is_first_loop with
      | true => exact ih _ _ _ _
      | false => exact ih _ _ _ _
    · rw [if_neg hguard]
      exact Or.inr rfl

/-- The inverter always returns a value (helper shared by C1 and C9). -/
theorem get_int_some (o : Cam16Oracle) (hue chroma lstar : ℚ) :
    ∃ argb, get_int_in_viewing_conditions o hue chroma lstar = some argb := by
  unfold get_int_in_viewing_conditions
  split
  · exact ⟨_, rfl⟩
  · apply get_int_loop_some o _ lstar _ 0 chroma chroma true none
      (fun hcon => by simp at hcon)
    simp only [if_true]
    omega

/-- C1: for every oracle and every (hue, chroma, tone) input the HCT inverter
terminates with an ARGB value — the chroma and lightness binary-search fuel
computed from the shrinking interval widths always suffices — and whenever no
chroma/J trial satisfies the `|ΔL*| < 0.2` tone tolerance, the returned value
is the zero-chroma neutral gray `argb_from_lstar(tone)`. -/
theorem C1_inverter_terminates_with_gray_fallback (o : Cam16Oracle)
    (hue chroma lstar : ℚ) :
    (∃ argb, get_int_in_viewing_conditions o hue chroma lstar = some argb) ∧
    ((∀ j c h, |lstar - o.lstar_from_argb (o.viewed_jch j c h)| ≥ dl_max) →
      get_int_in_viewing_conditions o hue chroma lstar
        = some (argb_from_lstar o.tf lstar)) := by
  refine ⟨get_int_some o hue chroma lstar, ?_⟩
  intro hyp
  unfold get_int_in_viewing_conditions
  split
  · rfl
  · set hue' := if hue < 0 then (0 : ℚ) else if hue > 360 then 360 else hue with hh
    rcases get_int_loop_no_tol o hue' lstar (fun j c => hyp j c hue')
        ((Int.floor (|(0 : ℚ) - chroma| / chroma_search_endpoint)).toNat + 2)
        0 chroma chroma true with hn | hn
    · exfalso
      obtain ⟨r, hr⟩ := get_int_loop_some o hue' lstar
        ((Int.floor (|(0 : ℚ) - chroma| / chroma_search_endpoint)).toNat + 2)
        0 chroma chroma true none (fun hcon => by simp at hcon)
        (by simp only [if_true]; omega)
      rw [hr] at hn
      exact Option.noConfusion hn
    · exact hn

theorem C1_inverter_terminates_with_gray_fallback_witness :
    (∃ argb, get_int_in_viewing_conditions
        ⟨fun _ _ _ => 0, fun _ => 1000, fun _ _ => 0, fun n => n, fun _ => 0,
         fun _ => 0, fun _ => 0⟩ 10 2 50 = some argb) ∧
    get_int_in_viewing_conditions
        ⟨fun _ _ _ => 0, fun _ => 1000, fun _ _ => 0, fun n => n, fun _ => 0,
         fun _ => 0, fun _ => 0⟩ 10 2 50
      = some (argb_from_lstar (fun _ => 0) 50) := by
  refine ⟨(C1_inverter_terminates_with_gray_fallback _ 10 2 50).1, ?_⟩
  exact (C1_inverter_terminates_with_gray_fallback _ 10 2 50).2
    (fun j c h => by norm_num [dl_max])

/-- C9: `Hct::new` stores not the requested triple but the attributes of the
realized color: the returned struct's hue and chroma are the CAM16 hue and
chroma of the ARGB the inverter realized for the (sanitized, clamped)
request, and its tone is that ARGB's L*. -/
theorem C9_hct_new_stores_realized_attributes (o : Cam16Oracle)
    (hue chroma tone : ℚ) :
    ∃ argb,
      get_int_in_viewing_conditions o (sanitize_degrees_double hue) chroma
          (clamp_double 0 100 tone) = some argb ∧
      hct_new o hue chroma tone
        = some ⟨o.cam_hue argb, o.cam_chroma argb, o.lstar_from_argb argb⟩ := by
  obtain ⟨argb, h⟩ := get_int_some o (sanitize_degrees_double hue) chroma
    (clamp_double 0 100 tone)
  refine ⟨argb, h, ?_⟩
  unfold hct_new
  rw [h]

end Material3
